import Mathlib

/-!
Verification development for the patient-data anonymization batch tool
(`adicionarnome.py`).  The Python functions are shallowly embedded as
executable Lean definitions over `Str := List Char`; Python strings are
Unicode sequences and so are `List Char` values.  Python's `str.lower()` /
`str.upper()` are modelled for the character repertoire that occurs in the
program's literals and data (ASCII plus the Latin-1 accented letters used in
Portuguese); Python handles all of Unicode, but no other characters are
case-mapped by any string in this development.
-/

namespace Anonymizer

/-- Working representation of a Python `str`: its list of characters. -/
abbrev Str := List Char

/-- Coerce a Lean string literal to the model representation. -/
def str (s : String) : Str := s.data

/-- Accented Latin letters used by the program, as (upper, lower) pairs.
Python's `str.lower`/`str.upper` map all of Unicode; the program's literals
and corpus only use these. -/
def accentPairs : List (Char × Char) :=
  [('Á', 'á'), ('À', 'à'), ('Â', 'â'), ('Ã', 'ã'), ('Ä', 'ä'),
   ('É', 'é'), ('È', 'è'), ('Ê', 'ê'), ('Ë', 'ë'),
   ('Í', 'í'), ('Ì', 'ì'), ('Î', 'î'), ('Ï', 'ï'),
   ('Ó', 'ó'), ('Ò', 'ò'), ('Ô', 'ô'), ('Õ', 'õ'), ('Ö', 'ö'),
   ('Ú', 'ú'), ('Ù', 'ù'), ('Û', 'û'), ('Ü', 'ü'), ('Ç', 'ç'), ('Ñ', 'ñ')]

/-- Model of Python `str.lower` on one character. -/
def lowerCh (c : Char) : Char :=
  if 'A' ≤ c ∧ c ≤ 'Z' then Char.ofNat (c.toNat + 32)
  else match accentPairs.find? (fun p => p.fst == c) with
       | some p => p.snd
       | none => c

/-- Model of Python `str.upper` on one character. -/
def upperCh (c : Char) : Char :=
  if 'a' ≤ c ∧ c ≤ 'z' then Char.ofNat (c.toNat - 32)
  else match accentPairs.find? (fun p => p.snd == c) with
       | some p => p.fst
       | none => c

/-- Model of Python `str.lower` on a string. -/
def pyLower (s : Str) : Str := s.map lowerCh

/-- Python whitespace characters stripped by `str.strip` (ASCII range). -/
def isWs (c : Char) : Bool :=
  c == ' ' || c == '\t' || c == '\n' || c == '\r' || c == '\x0b' || c == '\x0c'

/-- Model of Python `str.strip` (drop leading and trailing whitespace). -/
def pyStrip (s : Str) : Str :=
  ((s.dropWhile isWs).reverse.dropWhile isWs).reverse

/-- Does `s` start with `p`?  (Model of Python `str.startswith`.) -/
def startsWithL : Str → Str → Bool
  | _, [] => true
  | [], _ :: _ => false
  | a :: as, b :: bs => a == b && startsWithL as bs

/-- Does `s` end with `p`?  (Model of Python `str.endswith`.) -/
def endsWithL (s p : Str) : Bool := startsWithL s.reverse p.reverse

/-- Model of the Python substring test `needle in hay`. -/
def pyIn (needle : Str) : Str → Bool
  | [] => startsWithL [] needle
  | c :: cs => startsWithL (c :: cs) needle || pyIn needle cs

/-- Model of Python `str.split(c)` for a one-character separator. -/
def splitChar (c : Char) : Str → List Str
  | [] => [[]]
  | a :: as =>
      let r := splitChar c as
      if a == c then [] :: r
      else match r with
           | h :: t => (a :: h) :: t
           | [] => [[a]]

/-- Model of Python `str.split(c, 1)`: split at the first occurrence of the
character `c`, if any. -/
def splitOnceChar (c : Char) : Str → Option (Str × Str)
  | [] => none
  | a :: as =>
      if a == c then some ([], as)
      else match splitOnceChar c as with
           | some (l, r) => some (a :: l, r)
           | none => none

/-- Model of Python `str.split(sep, 1)` for a multi-character separator:
split at the first occurrence of `sep`, if any. -/
def splitOnceSub (sep : Str) : Str → Option (Str × Str)
  | [] => none
  | a :: as =>
      if startsWithL (a :: as) sep then some ([], (a :: as).drop sep.length)
      else match splitOnceSub sep as with
           | some (l, r) => some (a :: l, r)
           | none => none

/-- Join a list of strings with a separator (Python `sep.join(xs)`). -/
def joinSep (sep : Str) : List Str → Str
  | [] => []
  | [x] => x
  | x :: xs => x ++ sep ++ joinSep sep xs

/-- Decimal digits of a natural number (Python `str(n)` for `n : int ≥ 0`). -/
def natToStr (n : Nat) : Str := (toString n).data

/-!
## `PatientDataCleaner._clean_existing_identification` (source lines 705-938)

The function parses an existing identification block (either the legacy
`"Key: value"` line format or the comma-separated narrative format),
applies defaults, corrects marital status and occupation for gender
agreement, and re-serializes as `"v1, v2 e v3"`.  It is decomposed here
exactly along the source's phases: parse, defaults, the two correction
passes, and assembly.
-/

/-- Field map built by `_clean_existing_identification` (the Python dict
`extracted_values`); `none` models an absent key. -/
structure ExtractedValues where
  nome : Option Str
  idade : Option Str
  genero : Option Str
  ocupacao : Option Str
  estado_civil : Option Str
  procedencia : Option Str
deriving Repr, DecidableEq

/-- Empty `extracted_values` dict. -/
def ExtractedValues.empty : ExtractedValues :=
  ⟨none, none, none, none, none, none⟩

/-- List of marital statuses recognized by the comma-format parser
(source lines 764-767). -/
def maritalStatuses : List Str :=
  [str "casado", str "casada", str "solteiro", str "solteira",
   str "divorciado", str "divorciada", str "viúvo", str "viúva",
   str "separado", str "separada"]

/-- List of common occupations recognized by the comma-format parser
(source lines 770-775). -/
def commonOccupations : List Str :=
  [str "professor", str "professora", str "enfermeiro", str "enfermeira",
   str "comerciante", str "motorista", str "funcionário", str "funcionária",
   str "aposentado", str "aposentada", str "estudante", str "pedreiro",
   str "cozinheiro", str "cozinheira", str "médico", str "médica",
   str "advogado", str "advogada", str "engenheiro", str "engenheira",
   str "contador", str "contadora"]

/-- Keywords marking a part as a geographic origin (source lines 786, 810). -/
def procedenciaKeywords : List Str :=
  [str "área", str "zona", str "capital", str "urbana", str "rural"]

/-- Update of `extracted_values` for one legacy-format line `key: value`
(source lines 724-742).  The key was lowercased and stripped; the chain of
substring tests mirrors the source's `if`/`elif` order. -/
def updateFromColonLine (ev : ExtractedValues) (line : Str) : ExtractedValues :=
  if pyIn [':'] line then
    match splitOnceChar ':' line with
    | none => ev
    | some (k, v) =>
        let key := pyLower (pyStrip k)
        let value := pyStrip v
        if pyIn (str "nome") key then { ev with nome := some value }
        else if pyIn (str "idade") key then { ev with idade := some value }
        else if pyIn (str "gênero") key || pyIn (str "genero") key then
          { ev with genero := some value }
        else if pyIn (str "ocupação") key || pyIn (str "ocupacao") key ||
                pyIn (str "profissão") key || pyIn (str "profissao") key then
          { ev with ocupacao := some value }
        else if pyIn (str "estado civil") key || pyIn (str "estado_civil") key then
          { ev with estado_civil := some value }
        else if pyIn (str "procedência") key || pyIn (str "procedencia") key ||
                pyIn (str "origem") key then
          { ev with procedencia := some value }
        else ev
  else ev

/-- Handling of the last comma-separated part (source lines 761-805):
it may be `"ocupacao e estado_civil"`, `"estado_civil e procedencia"`, or a
single status/occupation. -/
def updateFromLastPart (ev : ExtractedValues) (lastPart : Str) : ExtractedValues :=
  match splitOnceSub (str " e ") lastPart with
  | some (p1, p2) =>
      let p1l := pyLower (pyStrip p1)
      let p2l := pyLower (pyStrip p2)
      if maritalStatuses.contains p1l then
        let ev := { ev with estado_civil := some (pyStrip p1) }
        if procedenciaKeywords.any (fun kw => pyIn kw p2l) then
          { ev with procedencia := some (pyStrip p2) }
        else ev
      else if commonOccupations.contains p1l then
        { ev with ocupacao := some (pyStrip p1), estado_civil := some (pyStrip p2) }
      else
        { ev with ocupacao := some (pyStrip p1), estado_civil := some (pyStrip p2) }
  | none =>
      let ll := pyLower lastPart
      if maritalStatuses.contains ll then { ev with estado_civil := some lastPart }
      else if commonOccupations.contains ll then { ev with ocupacao := some lastPart }
      else { ev with ocupacao := some lastPart }

/-- Scan of the middle parts `parts[3:-1]` for a geographic origin
(source lines 807-812): the first part containing a keyword wins. -/
def findProcedencia (parts : List Str) : Option Str :=
  parts.find? (fun part => procedenciaKeywords.any (fun kw => pyIn kw (pyLower part)))

/-- Update of `extracted_values` for one comma-format line
(source lines 745-812). -/
def updateFromCommaLine (ev : ExtractedValues) (line : Str) : ExtractedValues :=
  let parts := (splitChar ',' line).map pyStrip
  if 4 ≤ parts.length then
    let ev := { ev with nome := some (parts.getD 0 []) }
    let ev := if pyIn (str "anos") (parts.getD 1 []) then
                { ev with idade := some (parts.getD 1 []) }
              else ev
    let ev := { ev with genero := some (parts.getD 2 []) }
    let lastPart := parts.getLastD []
    let ev := updateFromLastPart ev lastPart
    if 4 < parts.length then
      match findProcedencia ((parts.drop 3).dropLast) with
      | some p => { ev with procedencia := some p }
      | none => ev
    else ev
  else ev

/-- Default placeholder for the name field (source line 818). -/
def nomeDefault : Str := str "Nome Desconhecido"

/-- Default placeholder for the age field (source line 819). -/
def idadeDefault : Str := str "idade não informada"

/-- Default placeholder for the gender field (source line 820). -/
def generoDefault : Str := str "gênero não informado"

/-- Default placeholder for the occupation field (source line 821). -/
def ocupacaoDefault : Str := str "ocupação não informada"

/-- Default placeholder for the marital-status field (source line 822). -/
def estadoCivilDefault : Str := str "estado civil não informado"

/-- One default application: keep the field if present and non-empty,
else the default (source lines 826-828). -/
def orDefault (v : Option Str) (d : Str) : Str :=
  match v with
  | some s => if s.isEmpty then d else s
  | none => d

/-- Field map after the defaults pass: the five standard fields are always
present; `procedencia` stays optional (it has no default in the source). -/
structure FilledValues where
  nome : Str
  idade : Str
  genero : Str
  ocupacao : Str
  estado_civil : Str
  procedencia : Option Str
deriving Repr, DecidableEq

/-- Defaults pass (source lines 816-828). -/
def applyDefaults (ev : ExtractedValues) : FilledValues :=
  { nome := orDefault ev.nome nomeDefault
    idade := orDefault ev.idade idadeDefault
    genero := orDefault ev.genero generoDefault
    ocupacao := orDefault ev.ocupacao ocupacaoDefault
    estado_civil := orDefault ev.estado_civil estadoCivilDefault
    procedencia := ev.procedencia }

/-- Marital-status correction table for a masculine patient
(source lines 839-847), in the source's insertion order. -/
def maritalCorrMasc : List (Str × Str) :=
  [(str "viúva", str "Viúvo"), (str "viuva", str "Viúvo"),
   (str "viúvo", str "Viúvo"), (str "viuvo", str "Viúvo"),
   (str "casada", str "Casado"), (str "solteira", str "Solteiro"),
   (str "divorciada", str "Divorciado")]

/-- Marital-status correction table for a feminine patient
(source lines 848-856). -/
def maritalCorrFem : List (Str × Str) :=
  [(str "viúvo", str "Viúva"), (str "viuvo", str "Viúva"),
   (str "viúva", str "Viúva"), (str "viuva", str "Viúva"),
   (str "casado", str "Casada"), (str "solteiro", str "Solteira"),
   (str "divorciado", str "Divorciada")]

/-- Occupation correction table for a masculine patient
(source lines 881-889). -/
def occupationCorrMasc : List (Str × Str) :=
  [(str "professora", str "Professor"), (str "enfermeira", str "Enfermeiro"),
   (str "funcionária", str "Funcionário"), (str "funcionaria", str "Funcionário"),
   (str "funcionária pública", str "Funcionário público"),
   (str "funcionaria publica", str "Funcionário público"),
   (str "aposentada", str "Aposentado")]

/-- Occupation correction table for a feminine patient
(source lines 890-898). -/
def occupationCorrFem : List (Str × Str) :=
  [(str "professor", str "Professora"), (str "enfermeiro", str "Enfermeira"),
   (str "funcionário", str "Funcionária"), (str "funcionario", str "Funcionária"),
   (str "funcionário público", str "Funcionária pública"),
   (str "funcionario publico", str "Funcionária pública"),
   (str "aposentado", str "Aposentada")]

/-- Marital-status correction pass (source lines 830-870): if the lowercased
gender is `masculino`/`feminino`, replace the status by the first table entry
whose key equals the lowercased status. -/
def fixMarital (fv : FilledValues) : FilledValues :=
  let g := pyLower fv.genero
  if g == str "masculino" || g == str "feminino" then
    let table := if g == str "masculino" then maritalCorrMasc else maritalCorrFem
    let ms := pyLower fv.estado_civil
    match table.find? (fun p => p.fst == ms) with
    | some p => { fv with estado_civil := p.snd }
    | none => fv
  else fv

/-- Occupation correction pass (source lines 872-912): if the lowercased
gender is `masculino`/`feminino`, replace the occupation by the first table
entry whose key is a substring of the lowercased occupation. -/
def fixOccupation (fv : FilledValues) : FilledValues :=
  let g := pyLower fv.genero
  if g == str "masculino" || g == str "feminino" then
    let table := if g == str "masculino" then occupationCorrMasc else occupationCorrFem
    let occ := pyLower fv.ocupacao
    match table.find? (fun p => pyIn p.fst occ) with
    | some p => { fv with ocupacao := p.snd }
    | none => fv
  else fv

/-- Value list assembled in the source's order, skipping fields still at
their default (source lines 914-925); the gender placeholder is skipped by
the same comparison. -/
def valuesList (fv : FilledValues) : List Str :=
  (if fv.nome == nomeDefault then [] else [fv.nome]) ++
  (if fv.idade == idadeDefault then [] else [fv.idade]) ++
  (if fv.genero == generoDefault then [] else [fv.genero]) ++
  (if fv.ocupacao == ocupacaoDefault then [] else [fv.ocupacao]) ++
  (if fv.estado_civil == estadoCivilDefault then [] else [fv.estado_civil]) ++
  (match fv.procedencia with
   | some p => if p.isEmpty then [] else [p]
   | none => [])

/-- Final serialization (source lines 927-938): `""` for no values, the value
itself for one, `"a e b"` for two, and `"v1, v2 e v3"` otherwise. -/
def serializeValues (vs : List Str) : Str :=
  match vs with
  | [] => []
  | [v] => v
  | [v1, v2] => v1 ++ str " e " ++ v2
  | _ => joinSep (str ", ") vs.dropLast ++ str " e " ++ vs.getLastD []

/-- Parse phase of `_clean_existing_identification` (source lines 713-812):
split into non-blank stripped lines, then fill `extracted_values` from the
legacy colon format if any line has a colon, else from the comma format. -/
def parseIdentification (info_text : Str) : ExtractedValues :=
  let lines := ((splitChar '\n' info_text).map pyStrip).filter (fun l => !l.isEmpty)
  let hasColon := lines.any (fun l => pyIn [':'] l)
  if hasColon then
    lines.foldl updateFromColonLine ExtractedValues.empty
  else
    lines.foldl updateFromCommaLine ExtractedValues.empty

/-- Model of `PatientDataCleaner._clean_existing_identification`
(source lines 705-938), with the phases composed exactly as in the source.
The debug prints are I/O only and are not modelled. -/
def clean_existing_identification (info_text : Str) : Str :=
  if info_text.isEmpty then []
  else
    serializeValues (valuesList (fixOccupation (fixMarital
      (applyDefaults (parseIdentification info_text)))))

/-- Field value fit for the comma-separated serialization: non-empty, free of
the structural characters (comma, newline, colon), and with no whitespace at
either edge. -/
def cleanFieldValue (v : Str) : Prop :=
  v ≠ [] ∧ (∀ c ∈ v, c ≠ ',' ∧ c ≠ '\n' ∧ c ≠ ':') ∧
  (∀ c, v.head? = some c → isWs c = false) ∧
  (∀ c, v.getLast? = some c → isWs c = false)

instance (v : Str) : Decidable (cleanFieldValue v) := by
  unfold cleanFieldValue; infer_instance

/-!
## Random choices

The program draws from `random` (uniform choices and Bernoulli coin flips).
Randomness is modelled by explicit oracle data: every theorem quantifies
over all possible outcomes, so the distribution is irrelevant.
-/

/-- Model of `random.choice` on a list of strings: an arbitrary element,
selected by the oracle index `k` (any element is reachable by some `k`).
`random.choice([])` raises `IndexError`; callers that can reach the empty
list model that case explicitly. -/
def pyChoice (k : Nat) (l : List Str) : Str := l.getD (k % l.length) []

/-- Model of `random.choice` on a list of naturals. -/
def pyChoiceNat (k : Nat) (l : List Nat) : Nat := l.getD (k % l.length) 0

/-!
## Attribute synthesis (`_infer_*`, `_is_lgbt_relevant_theme`)

The Python methods receive a context dict `{'tituloEstacao': title}`; only
the title is read, so the model takes the title string directly.
-/

/-- Model of `PatientDataCleaner._infer_age_from_context`
(source lines 256-287). -/
def infer_age_from_context (title : Str) (gender : Str) (k : Nat) : Nat :=
  let disease := pyLower title
  if pyIn (str "cetoacidose diabética") disease || pyIn (str "diabetes") disease then
    pyChoiceNat k [25, 35, 45, 65, 75]
  else if pyIn (str "cistite") disease || pyIn (str "itu") disease then
    if gender == str "feminino" then pyChoiceNat k [22, 28, 35, 42, 55]
    else pyChoiceNat k [45, 55, 65, 70]
  else if pyIn (str "cardiopatia chagásica") disease || pyIn (str "chagas") disease then
    pyChoiceNat k [45, 50, 55, 60, 65]
  else if pyIn (str "avc") disease || pyIn (str "acidente vascular") disease then
    pyChoiceNat k [60, 65, 70, 75, 80]
  else if pyIn (str "infarto") disease || pyIn (str "angina") disease then
    if gender == str "masculino" then pyChoiceNat k [50, 55, 60, 65, 70]
    else pyChoiceNat k [55, 60, 65, 70, 75]
  else if gender == str "feminino" then pyChoiceNat k [25, 35, 45, 55, 65]
  else pyChoiceNat k [30, 40, 50, 60, 70]

/-- Model of `PatientDataCleaner._infer_occupation` (source lines 289-324). -/
def infer_occupation (age : Nat) (title : Str) (gender : Str) (k : Nat) : Str :=
  let disease := pyLower title
  if pyIn (str "chagas") disease || pyIn (str "chagásica") disease then
    if pyLower gender == str "masculino" then str "Trabalhador rural"
    else str "Trabalhadora rural"
  else if pyIn (str "diabetes") disease || pyIn (str "cetoacidose") disease then
    if 60 < age then
      if pyLower gender == str "masculino" then str "Aposentado" else str "Aposentada"
    else if 25 < age then
      if pyLower gender == str "masculino" then str "Profissional liberal"
      else str "Profissional liberal"
    else
      if pyLower gender == str "masculino" then str "Estudante" else str "Estudante"
  else if pyIn (str "cistite") disease || pyIn (str "itu") disease then
    if 60 < age then
      if pyLower gender == str "feminino" then str "Aposentada" else str "Aposentado"
    else if 25 < age then
      if pyLower gender == str "feminino" then str "Profissional de escritório"
      else str "Profissional de escritório"
    else
      if pyLower gender == str "feminino" then str "Estudante" else str "Estudante"
  else if 65 < age then
    if pyLower gender == str "masculino" then str "Aposentado" else str "Aposentada"
  else if 25 < age then
    if pyLower gender == str "masculino" then
      pyChoice k [str "Professor", str "Enfermeiro", str "Comerciante",
                  str "Motorista", str "Funcionário público"]
    else
      pyChoice k [str "Professora", str "Enfermeira", str "Comerciante",
                  str "Motorista", str "Funcionária pública"]
  else if 18 < age then
    if pyLower gender == str "masculino" then str "Estudante universitário"
    else str "Estudante universitária"
  else
    if pyLower gender == str "masculino" then str "Estudante" else str "Estudante"

/-- Model of `PatientDataCleaner._infer_marital_status`
(source lines 326-341). -/
def infer_marital_status (age : Nat) (gender : Str) (k : Nat) : Str :=
  if age < 25 then
    if pyLower gender == str "masculino" then str "Solteiro" else str "Solteira"
  else if age < 60 then
    if pyLower gender == str "masculino" then
      pyChoice k [str "Casado", str "Solteiro", str "Divorciado"]
    else
      pyChoice k [str "Casada", str "Solteira", str "Divorciada"]
  else
    if pyLower gender == str "masculino" then
      pyChoice k [str "Casado", str "Viúvo"]
    else
      pyChoice k [str "Casada", str "Viúva"]

/-- Model of `PatientDataCleaner._infer_origin` (source lines 343-352). -/
def infer_origin (title : Str) : Option Str :=
  let disease := pyLower title
  if pyIn (str "chagas") disease || pyIn (str "chagásica") disease then
    some (str "Área rural de Minas Gerais")
  else if pyIn (str "dengue") disease || pyIn (str "chikungunya") disease ||
          pyIn (str "zika") disease then
    some (str "Área urbana periférica")
  else none

/-- Keyword list of `_is_lgbt_relevant_theme` (source lines 359-363). -/
def lgbtKeywords : List Str :=
  [str "homossexual", str "lésbica", str "gay", str "lgbt", str "trans",
   str "transexual", str "identidade de gênero", str "orientação sexual",
   str "dst", str "aids", str "hiv", str "gonorreia", str "sífilis",
   str "herpes genital", str "condiloma", str "hpv"]

/-- Model of `PatientDataCleaner._is_lgbt_relevant_theme`
(source lines 354-365). -/
def is_lgbt_relevant_theme (title : Str) : Bool :=
  lgbtKeywords.any (fun kw => pyIn kw (pyLower title))

/-!
## Name registry (`_get_name_category`, `_get_random_name`)
-/

/-- One category of the name database: `{titulo, nomes}`
(the database format documented in the spec, section 6). -/
structure NameCategory where
  titulo : Str
  nomes : List Str
deriving Repr, DecidableEq

/-- Used-names tracker: the Python dict `self.used_names` mapping category
titles to sets of issued names, as an association list (first match wins,
like dict lookup; all values distinct by construction). -/
abbrev Tracker := List (Str × List Str)

/-- Model of `_initialize_used_names_tracker` (source lines 51-57). -/
def initTracker (db : List NameCategory) : Tracker :=
  db.map (fun c => (c.titulo, ([] : List Str)))

/-- Dict lookup `tracker[key]` (raises `KeyError` when absent, modelled by
`none` at the call sites). -/
def lookupT (tr : Tracker) (key : Str) : Option (List Str) :=
  (tr.find? (fun p => p.fst == key)).map Prod.snd

/-- Dict update `tracker[key] = v` (replace the first matching entry). -/
def updateT (tr : Tracker) (key : Str) (v : List Str) : Tracker :=
  match tr with
  | [] => []
  | p :: ps => if p.fst == key then (key, v) :: ps else p :: updateT ps key v

/-- Model of `_get_name_category` (source lines 59-70). -/
def get_name_category (age : Nat) (gender : Str) : Str :=
  let category_type :=
    if age < 15 then str "recém-nascidos, crianças e pré-adolescentes"
    else if age ≤ 40 then str "Jovens e Adolescentes"
    else str "Meia-Idade e Idosos"
  let gender_prefix :=
    if pyLower gender == str "masculino" then str "Masculinos" else str "Femininos"
  str "Nomes " ++ gender_prefix ++ str " Mais Comuns (" ++ category_type ++ str ")"

/-- Fallback category title for masculine names (source line 77). -/
def fallbackMasc : Str := str "Nomes Masculinos Mais Comuns (Meia-Idade e Idosos)"

/-- Fallback category title for feminine names (source line 79). -/
def fallbackFem : Str := str "Nomes Femininos Mais Comuns (Meia-Idade e Idosas)"

/-- Python's `==` between a `str` and a `dict` is `False`; the membership
test `category not in self.names_data.get('categorias', [])` (source
line 74) compares the category string with the category dicts and is
therefore vacuously true. -/
def pyStrEqCategory (_ : Str) (_ : NameCategory) : Bool := false

/-- Category-resolution step of `_get_random_name` (source lines 74-79):
keep the category if the (string-vs-dict) membership test finds it, else
fall back to the fixed per-gender default title. -/
def resolveCategory (db : List NameCategory) (category : Str) : Str :=
  if db.any (fun c => pyStrEqCategory category c) then category
  else if pyIn (str "Masculinos") category then fallbackMasc
  else fallbackFem

/-- Python exceptions reachable from `_get_random_name`. -/
inductive PyErr where
  | keyError
  | indexError
deriving Repr, DecidableEq

instance {e a : Type} [DecidableEq e] [DecidableEq a] : DecidableEq (Except e a) := fun x y =>
  match x, y with
  | .ok u, .ok v =>
      if h : u = v then isTrue (congrArg Except.ok h)
      else isFalse (fun hc => h (by injection hc))
  | .error u, .error v =>
      if h : u = v then isTrue (congrArg Except.error h)
      else isFalse (fun hc => h (by injection hc))
  | .ok _, .error _ => isFalse (fun hc => Except.noConfusion hc)
  | .error _, .ok _ => isFalse (fun hc => Except.noConfusion hc)

/-- Model of `_get_random_name` (source lines 72-102).  Returns the selected
name and the updated tracker, or the exception Python would raise:
`KeyError` when the used-names dict lacks the resolved category (the list
comprehension at line 92 evaluates `self.used_names[category]` only when
`all_names` is non-empty; the `clear()` at line 96 needs it as well), and
`IndexError` when `random.choice` is applied to an empty pool. -/
def get_random_name (db : List NameCategory) (tr : Tracker) (category : Str)
    (k : Nat) : Except PyErr (Str × Tracker) :=
  let category := resolveCategory db category
  match db.find? (fun c => c.titulo == category) with
  | none => .ok (str "Nome Desconhecido", tr)
  | some cat =>
      let all_names := cat.nomes
      if all_names.isEmpty then
        -- the comprehension yields [] without touching the tracker;
        -- `if not available_names` then runs `used_names[category].clear()`
        match lookupT tr category with
        | none => .error .keyError
        | some _ => .error .indexError   -- random.choice([]) after the reset
      else
        match lookupT tr category with
        | none => .error .keyError
        | some used =>
            let available := all_names.filter (fun n => !(used.contains n))
            if available.isEmpty then
              -- reset: clear the used set, draw from the full pool
              let sel := pyChoice k all_names
              .ok (sel, updateT tr category [sel])
            else
              let sel := pyChoice k available
              .ok (sel, updateT tr category (sel :: used))

/-- Batch harness: successive draws from one category, threading the
tracker; a raised exception stops the run (the batch would crash). -/
def drawTrace (db : List NameCategory) (category : Str) :
    List Nat → Tracker → (List Str × Tracker)
  | [], tr => ([], tr)
  | k :: ks, tr =>
      match get_random_name db tr category k with
      | .ok (n, tr') =>
          let rest := drawTrace db category ks tr'
          (n :: rest.fst, rest.snd)
      | .error _ => ([], tr)

/-!
## Identification-field construction (`_create_identification_field`)
-/

/-- Model of Python `str.capitalize`: first character uppercased, the rest
lowercased. -/
def pyCapitalize (s : Str) : Str :=
  match s with
  | [] => []
  | c :: cs => upperCh c :: pyLower cs

/-- One entry of `informacoesVerbaisSimulado`. -/
structure Info where
  contextoOuPerguntaChave : Str
  informacao : Str
deriving Repr, DecidableEq

/-- Line list built by `_create_identification_field` (source lines
683-698); the Gênero line is inserted iff a context dict was passed (the
dict is non-empty, hence truthy, whenever passed) and the theme is
LGBT-relevant. -/
def create_identification_lines (name : Str) (age : Nat) (gender : Str)
    (occupation marital_status : Str) (origin : Option Str)
    (contextTitle : Option Str) : List Str :=
  (str "Nome: " ++ name) ::
  (str "Idade: " ++ natToStr age ++ str " anos") ::
  ((match contextTitle with
    | some t => if is_lgbt_relevant_theme t then [str "Gênero: " ++ pyCapitalize gender] else []
    | none => []) ++
   [str "Ocupação: " ++ occupation, str "Estado Civil: " ++ marital_status] ++
   (match origin with
    | some o => [str "Procedência: " ++ o]
    | none => []))

/-- Model of `_create_identification_field` (source lines 679-703). -/
def create_identification_field (name : Str) (age : Nat) (gender : Str)
    (occupation marital_status : Str) (origin : Option Str)
    (contextTitle : Option Str) : Info :=
  { contextoOuPerguntaChave := str "IDENTIFICAÇÃO DO PACIENTE"
    informacao := joinSep (str "\n")
      (create_identification_lines name age gender occupation marital_status
        origin contextTitle) }

/-- Model of `_check_duplicate_identification` (source lines 367-377),
returning `(has_duplicates, identification_count)`. -/
def check_duplicate_identification (infos : List Info) : Bool × Nat :=
  let count := (infos.filter
    (fun i => i.contextoOuPerguntaChave == str "IDENTIFICAÇÃO DO PACIENTE")).length
  (1 < count, count)

/-!
## Regular-expression engine

`_clean_description` and `_is_file_already_correct` are regex cascades.
The engine below models the fragment of Python `re` they use: character
classes, literals, concatenation, alternation, greedy `?`, greedy `+`/`*`
over classes, negative lookahead, word boundary, and `^` with and without
`re.MULTILINE`; matching is backtracking with Python's preference order
(leftmost match; greedy quantifiers prefer longer).  The `re.IGNORECASE`
flag is a parameter; case folding covers ASCII and the accented letters of
`accentPairs` (Python folds all of Unicode; no other characters appear in
this program's patterns or corpus).
-/

/-- Character classes of the patterns used by the program.  `wordc` is
Python `\w` (here: ASCII alphanumerics, underscore, and the accented
letters of `accentPairs`); `space` is Python `\s` (ASCII whitespace). -/
inductive CharCls where
  | upper
  | lower
  | digit
  | wordc
  | space
  | chs : List Char → CharCls
  | un : CharCls → CharCls → CharCls
deriving Repr, DecidableEq

/-- Python `\w` membership for the modelled repertoire. -/
def isWordCh (c : Char) : Bool :=
  ('A' ≤ c && c ≤ 'Z') || ('a' ≤ c && c ≤ 'z') || ('0' ≤ c && c ≤ '9') || c == '_' ||
  accentPairs.any (fun p => p.fst == c || p.snd == c)

/-- Class membership, honouring `re.IGNORECASE` for letter ranges and
explicit sets. -/
def clsMatch (ic : Bool) : CharCls → Char → Bool
  | .upper, c => if ic then ('A' ≤ c && c ≤ 'Z') || ('a' ≤ c && c ≤ 'z')
                 else 'A' ≤ c && c ≤ 'Z'
  | .lower, c => if ic then ('A' ≤ c && c ≤ 'Z') || ('a' ≤ c && c ≤ 'z')
                 else 'a' ≤ c && c ≤ 'z'
  | .digit, c => '0' ≤ c && c ≤ '9'
  | .wordc, c => isWordCh c
  | .space, c => isWs c
  | .chs l, c => if ic then (l.map lowerCh).contains (lowerCh c) else l.contains c
  | .un a b, c => clsMatch ic a c || clsMatch ic b c

/-- Regex abstract syntax for the used fragment. -/
inductive Re where
  | eps
  | lit : Char → Re
  | cls : CharCls → Re
  | seq : Re → Re → Re
  | alt : Re → Re → Re
  | opt : Re → Re
  | rep1 : CharCls → Re
  | rep0 : CharCls → Re
  | nla : Re → Re
  | wb : Re
  | bos : Re
  | bol : Re
deriving Repr, DecidableEq

/-- Literal string as a regex. -/
def slit (s : String) : Re :=
  s.data.foldr (fun c r => Re.seq (Re.lit c) r) Re.eps

/-- Ordered alternation of a non-empty pattern list (left first, like
Python's `|`). -/
def alts : List Re → Re
  | [] => Re.eps
  | [r] => r
  | r :: rs => Re.alt r (alts rs)

/-- Greedy class repetition: prefer consuming, backtrack one character at a
time (Python `[c]*` semantics).  `prev` is the previous character, needed
for `\b` in the continuation. -/
def repAux (ic : Bool) (cc : CharCls) :
    Option Char → Str → (Option Char → Str → Option Str) → Option Str
  | prev, [], k => k prev []
  | prev, a :: as, k =>
      if clsMatch ic cc a then
        match repAux ic cc (some a) as k with
        | some r => some r
        | none => k prev (a :: as)
      else k prev (a :: as)

/-- Backtracking matcher in continuation-passing style.  `mAt ic r prev s k`
tries to match `r` at the start of `s` (with `prev` the character before
`s`), calling `k` on the remainder for each candidate in Python's
preference order and returning the first success. -/
def mAt (ic : Bool) : Re → Option Char → Str → (Option Char → Str → Option Str) → Option Str
  | .eps, prev, s, k => k prev s
  | .lit c, prev, s, k =>
      match s with
      | [] => none
      | a :: as =>
          if (if ic then lowerCh a == lowerCh c else a == c) then k (some a) as else none
  | .cls cc, prev, s, k =>
      match s with
      | [] => none
      | a :: as => if clsMatch ic cc a then k (some a) as else none
  | .seq r1 r2, prev, s, k => mAt ic r1 prev s (fun p' s' => mAt ic r2 p' s' k)
  | .alt r1 r2, prev, s, k =>
      match mAt ic r1 prev s k with
      | some res => some res
      | none => mAt ic r2 prev s k
  | .opt r, prev, s, k =>
      match mAt ic r prev s k with
      | some res => some res
      | none => k prev s
  | .rep1 cc, prev, s, k =>
      match s with
      | [] => none
      | a :: as => if clsMatch ic cc a then repAux ic cc (some a) as k else none
  | .rep0 cc, prev, s, k => repAux ic cc prev s k
  | .nla r, prev, s, k =>
      match mAt ic r prev s (fun _ _ => some []) with
      | some _ => none
      | none => k prev s
  | .wb, prev, s, k =>
      let before := match prev with | some c => isWordCh c | none => false
      let after := match s with | a :: _ => isWordCh a | [] => false
      if before != after then k prev s else none
  | .bos, prev, s, k => match prev with | none => k prev s | some _ => none
  | .bol, prev, s, k =>
      match prev with
      | none => k prev s
      | some c => if c == '\n' then k prev s else none

/-- Leftmost match: start position and matched length (model of
`re.search`). -/
def searchAux (ic : Bool) (r : Re) : Option Char → Str → Nat → Option (Nat × Nat)
  | prev, s, pos =>
      match mAt ic r prev s (fun _ rest => some rest) with
      | some rest => some (pos, s.length - rest.length)
      | none =>
          match s with
          | [] => none
          | a :: as => searchAux ic r (some a) as (pos + 1)

/-- Model of `re.search(r, s, flags)`, returning (start, length) of the
leftmost match. -/
def reSearch (ic : Bool) (r : Re) (s : Str) : Option (Nat × Nat) :=
  searchAux ic r none s 0

/-- Global substitution scan (model of `re.sub`): at each position try the
pattern; on a match emit the replacement and resume after it (an empty
match copies one character, as Python does). -/
def subAux (ic : Bool) (r : Re) (repl : Str) : Option Char → Str → Nat → Str
  | _, s, 0 => s
  | prev, s, fuel + 1 =>
      match mAt ic r prev s (fun _ rest => some rest) with
      | some rest =>
          let len := s.length - rest.length
          if len == 0 then
            match s with
            | [] => repl
            | a :: as => repl ++ a :: subAux ic r repl (some a) as fuel
          else
            repl ++ subAux ic r repl ((s.take len).getLast?) rest fuel
      | none =>
          match s with
          | [] => []
          | a :: as => a :: subAux ic r repl (some a) as fuel

/-- Model of `re.sub(r, repl, s, flags)`. -/
def reSub (ic : Bool) (r : Re) (repl : Str) (s : Str) : Str :=
  subAux ic r repl none s (s.length + 1)

/-- Model of `re.findall` for group-free patterns: the list of matched
texts, scanning like `re.sub`. -/
def findAllAux (ic : Bool) (r : Re) : Option Char → Str → Nat → List Str
  | _, _, 0 => []
  | prev, s, fuel + 1 =>
      match mAt ic r prev s (fun _ rest => some rest) with
      | some rest =>
          let len := s.length - rest.length
          if len == 0 then
            match s with
            | [] => [[]]
            | a :: as => [] :: findAllAux ic r (some a) as fuel
          else
            s.take len :: findAllAux ic r ((s.take len).getLast?) rest fuel
      | none =>
          match s with
          | [] => []
          | a :: as => findAllAux ic r (some a) as fuel

/-- Model of `re.findall(r, s, flags)` for group-free patterns. -/
def reFindAll (ic : Bool) (r : Re) (s : Str) : List Str :=
  findAllAux ic r none s (s.length + 1)

/-- Model of Python `str.find`: index of the first occurrence, `-1` when
absent. -/
def pyFindAux (needle : Str) : Str → Nat → Int
  | [], i => if startsWithL [] needle then (i : Int) else -1
  | a :: as, i => if startsWithL (a :: as) needle then (i : Int) else pyFindAux needle as (i + 1)

/-- Python `hay.find(needle)`. -/
def pyFind (hay needle : Str) : Int := pyFindAux needle hay 0

/-- Python slice `s[:i]` (negative indices count from the end). -/
def pySliceTo (s : Str) (i : Int) : Str :=
  if i < 0 then s.take (s.length - (min s.length (-i).toNat)) else s.take i.toNat

/-- Python slice `s[i:]` (negative indices count from the end). -/
def pySliceFrom (s : Str) (i : Int) : Str :=
  if i < 0 then s.drop (s.length - (min s.length (-i).toNat)) else s.drop i.toNat

/-- Case-sensitive literal global replacement
(`re.sub(re.escape(t), repl, s)`); the program never passes an empty
target, which is left unchanged here. -/
def replaceAllAux (target repl : Str) : Str → Nat → Str
  | s, 0 => s
  | s, fuel + 1 =>
      if target.isEmpty then s
      else if startsWithL s target then repl ++ replaceAllAux target repl (s.drop target.length) fuel
      else
        match s with
        | [] => []
        | a :: as => a :: replaceAllAux target repl as fuel

/-- Python `re.sub(re.escape(target), repl, s)`. -/
def replaceAll (target repl s : Str) : Str :=
  replaceAllAux target repl s (s.length + 1)

/-- Case-insensitive literal global replacement
(`re.sub(re.escape(t), repl, s, flags=re.IGNORECASE)`). -/
def replaceAllCIAux (target repl : Str) : Str → Nat → Str
  | s, 0 => s
  | s, fuel + 1 =>
      if target.isEmpty then s
      else if startsWithL (pyLower (s.take target.length)) (pyLower target) &&
              decide (target.length ≤ s.length) then
        repl ++ replaceAllCIAux target repl (s.drop target.length) fuel
      else
        match s with
        | [] => []
        | a :: as => a :: replaceAllCIAux target repl as fuel

/-- Python `re.sub(re.escape(target), repl, s, flags=re.IGNORECASE)`. -/
def replaceAllCI (target repl s : Str) : Str :=
  replaceAllCIAux target repl s (s.length + 1)

/-!
## Patterns of `_clean_description` (source lines 404-677) and
`_is_file_already_correct` (source lines 379-402)
-/

/-- Concatenation of a pattern list. -/
def seqs : List Re → Re
  | [] => Re.eps
  | [r] => r
  | r :: rs => Re.seq r (seqs rs)

/-- Pattern `\s*`. -/
def wsS : Re := Re.rep0 .space

/-- Pattern `\s+`. -/
def wsP : Re := Re.rep1 .space

/-- Pattern `\d+`. -/
def digitsP : Re := Re.rep1 .digit

/-- Pattern `[A-Z][a-z]+` (a proper-name-shaped word). -/
def nameWord : Re := Re.seq (Re.cls .upper) (Re.rep1 .lower)

/-- Pattern `anos?`. -/
def anosOpt : Re := Re.seq (slit "ano") (Re.opt (Re.lit 's'))

/-- Pattern `,?`. -/
def commaOpt : Re := Re.opt (Re.lit ',')

/-- Common tail `,\s*\d+\s*anos?,?\s*,?\s*` of the filiation-start
patterns (source lines 434-440). -/
def filiationTail : Re :=
  seqs [Re.lit ',', wsS, digitsP, wsS, anosOpt, commaOpt, wsS, commaOpt, wsS]

/-- The `filiation_start_patterns` list (source lines 433-441), compiled
with `re.IGNORECASE | re.MULTILINE` (`^` is `bol`). -/
def filiationStartPatterns : List Re :=
  [seqs [Re.bol, slit "Don", Re.opt (Re.lit 'a'), wsP, nameWord, wsP, nameWord, filiationTail],
   seqs [Re.bol, slit "Sr", Re.opt (Re.lit '.'), wsP, nameWord, wsP, nameWord, filiationTail],
   seqs [Re.bol, slit "Dr", Re.opt (Re.lit '.'), wsP, nameWord, wsP, nameWord, filiationTail],
   seqs [Re.bol, slit "Sra", Re.opt (Re.lit '.'), wsP, nameWord, wsP, nameWord, filiationTail],
   seqs [Re.bol, nameWord, wsP, nameWord, filiationTail],
   seqs [Re.bol, slit "paciente", wsP, nameWord, wsP, nameWord, filiationTail],
   seqs [Re.bol, slit "Paciente", wsP, nameWord, wsP, nameWord, filiationTail]]

/-- The `clinical_indicators` list (source lines 451-455), `^`-anchored
without `re.MULTILINE` (`bos`). -/
def clinicalIndicators : List Re :=
  [Re.seq Re.bos (alts [slit "apresenta", slit "refere", slit "com", slit "queixa",
     slit "história", slit "antecedente", seqs [slit "em", wsP, slit "uso"],
     slit "diagnóstico"]),
   Re.seq Re.bos (alts [slit "dor", slit "febre", slit "náusea", slit "vômito",
     slit "cefaleia", slit "tontura", slit "fraqueza"]),
   Re.seq Re.bos (alts [seqs [slit "é", wsP, slit "trazid"], slit "chega",
     slit "comparece", slit "procura"])]

/-- The `patient_name_patterns` list (source lines 476-483),
`re.IGNORECASE`. -/
def patientNamePatterns : List Re :=
  [seqs [slit "Paciente", wsP, nameWord, wsP, nameWord, Re.lit ','],
   seqs [slit "Paciente", wsP, nameWord, wsP, nameWord, wsP, nameWord, Re.lit ','],
   seqs [slit "Paciente", wsP, nameWord, Re.lit ','],
   seqs [slit "Paciente", wsP, nameWord, wsP, nameWord],
   seqs [slit "Paciente", wsP, nameWord, wsP, nameWord, wsP, nameWord],
   seqs [slit "Paciente", wsP, nameWord]]

/-- The `start_name_patterns` list (source lines 489-493),
`re.IGNORECASE`, `^` without `re.MULTILINE`. -/
def startNamePatterns : List Re :=
  [seqs [Re.bos, nameWord, wsP, nameWord, Re.lit ','],
   seqs [Re.bos, nameWord, wsP, nameWord, wsP, nameWord, Re.lit ','],
   seqs [Re.bos, nameWord, Re.lit ',']]

/-- The `age_patterns` list of the scrubber (source lines 499-502),
`re.IGNORECASE`; the first has a negative lookahead protecting medical
durations. -/
def scrubAgePatterns : List Re :=
  [seqs [Re.wb, digitsP, wsS, anosOpt, Re.wb,
     Re.nla (seqs [wsS, Re.opt (seqs [slit "de", wsP]),
       alts [slit "dor", slit "febre", slit "diarréia", slit "constipação",
         slit "tontura", slit "fraqueza", slit "dispneia", slit "taquicardia",
         slit "hipotensão", slit "hipertensão", slit "diabetes", slit "câncer",
         slit "avc", slit "infarto"]])],
   seqs [Re.lit ',', wsS, digitsP, wsS, anosOpt, Re.lit ',']]

/-- The `remaining_name_patterns` list (source lines 508-514); its
`re.findall` calls pass NO flags, so matching is case-sensitive. -/
def remainingNamePatterns : List Re :=
  [seqs [Re.wb, slit "Don", Re.opt (Re.lit 'a'), wsP, nameWord, wsP, nameWord, Re.wb],
   seqs [Re.wb, slit "Sr", Re.opt (Re.lit '.'), wsP, nameWord, wsP, nameWord, Re.wb],
   seqs [Re.wb, slit "Sra", Re.opt (Re.lit '.'), wsP, nameWord, wsP, nameWord, Re.wb],
   seqs [Re.wb, nameWord, wsP, nameWord, wsP, nameWord, Re.wb],
   seqs [Re.wb, nameWord, wsP, nameWord, Re.wb]]

/-- Optional group `(?:do\s+sexo\s+(?:masculino|feminino))?`. -/
def doSexoOpt : Re :=
  Re.opt (seqs [slit "do", wsP, slit "sexo", wsP, alts [slit "masculino", slit "feminino"]])

/-- The `age_gender_patterns` list (source lines 537-544),
`re.IGNORECASE`.  The second pattern has a capturing group (see
`g2Group`). -/
def ageGenderPatterns : List Re :=
  [seqs [slit "paciente", wsP, slit "de", wsS, digitsP, wsS, anosOpt, commaOpt, wsS,
     doSexoOpt, commaOpt, wsS],
   seqs [slit "sexo", wsP, alts [slit "masculino", slit "feminino"], commaOpt, wsS,
     slit "idade", wsP, slit "de", wsS, digitsP, wsS, anosOpt, commaOpt, wsS],
   seqs [slit "idade", wsP, slit "de", wsS, digitsP, wsS, anosOpt, commaOpt, wsS,
     doSexoOpt, commaOpt, wsS],
   seqs [slit "de", wsS, digitsP, wsS, anosOpt, commaOpt, wsS,
     Re.opt (seqs [slit "de", wsP, slit "idade"]), commaOpt, wsS, doSexoOpt, commaOpt, wsS],
   seqs [slit "com", wsS, digitsP, wsS, anosOpt, commaOpt, wsS,
     Re.opt (seqs [slit "de", wsP, slit "idade"]), commaOpt, wsS],
   seqs [slit "ao", Re.opt (Re.lit 's'), wsS, digitsP, wsS, anosOpt, commaOpt, wsS]]

/-- The `occupation_patterns` list (source lines 557-576),
`re.IGNORECASE`. -/
def occupationPatterns : List Re :=
  [seqs [Re.wb, slit "motorista", wsP, slit "de", wsP, slit "aplicativo", Re.wb],
   seqs [Re.wb, slit "motorista", wsP, slit "de", wsP, slit "ônibus", Re.wb],
   seqs [Re.wb, slit "cozinheir", Re.opt (Re.cls (.chs ['a', 'o'])), Re.wb],
   seqs [Re.wb, slit "professor", Re.opt (Re.cls (.chs ['a', 'o'])), Re.wb],
   seqs [Re.wb, slit "professor", Re.opt (Re.lit 'a'), Re.wb],
   seqs [Re.wb, slit "médic", Re.opt (Re.cls (.chs ['a', 'o'])), Re.wb],
   seqs [Re.wb, slit "enfermeir", Re.opt (Re.cls (.chs ['a', 'o'])), Re.wb],
   seqs [Re.wb, slit "engenheir", Re.opt (Re.cls (.chs ['a', 'o'])), Re.wb],
   seqs [Re.wb, slit "advogad", Re.opt (Re.cls (.chs ['a', 'o'])), Re.wb],
   seqs [Re.wb, slit "comerciante", Re.wb],
   seqs [Re.wb, slit "empresári", Re.opt (Re.cls (.chs ['a', 'o'])), Re.wb],
   seqs [Re.wb, slit "funcionári", Re.opt (Re.cls (.chs ['a', 'o'])), Re.wb],
   seqs [Re.wb, slit "estudante", Re.wb],
   seqs [Re.wb, slit "doméstic", Re.opt (Re.lit 'a'), Re.wb],
   seqs [Re.wb, slit "aposentad", Re.opt (Re.cls (.chs ['a', 'o'])), Re.wb],
   seqs [Re.wb, slit "trabalhador", wsP, slit "rural", Re.wb],
   seqs [Re.wb, slit "analista", wsP, slit "financeiro", Re.wb],
   seqs [Re.wb, slit "pedreiro", Re.wb]]

/-- The `marital_patterns` list (source lines 602-608), `re.IGNORECASE`. -/
def maritalPatterns : List Re :=
  [seqs [Re.wb, slit "casad", Re.opt (Re.cls (.chs ['a', 'o'])), Re.wb],
   seqs [Re.wb, slit "solteir", Re.opt (Re.cls (.chs ['a', 'o'])), Re.wb],
   seqs [Re.wb, slit "divorciad", Re.opt (Re.cls (.chs ['a', 'o'])), Re.wb],
   seqs [Re.wb, slit "viúv", Re.opt (Re.cls (.chs ['a', 'o'])), Re.wb],
   seqs [Re.wb, slit "separad", Re.opt (Re.cls (.chs ['a', 'o'])), Re.wb]]

/-- The `origin_patterns` list (source lines 614-621), `re.IGNORECASE`. -/
def originPatterns : List Re :=
  [seqs [slit "área", wsP, slit "rural", wsP, slit "de", wsP, Re.rep1 .wordc],
   seqs [slit "área", wsP, slit "urbana", wsP, slit "periférica"],
   seqs [slit "cidade", wsP, Re.rep1 .wordc],
   slit "capital",
   seqs [slit "zona", wsP, slit "urbana"],
   seqs [slit "procedência", wsP, Re.rep1 (.un .wordc .space)]]

/-- The `context_replacements` table (source lines 627-634),
`re.IGNORECASE`. -/
def contextReplacements : List (Re × Str) :=
  [(seqs [Re.wb, slit "seu", wsP, slit "filho", Re.wb], str "seu acompanhante"),
   (seqs [Re.wb, slit "sua", wsP, slit "filha", Re.wb], str "sua acompanhante"),
   (seqs [Re.wb, slit "meu", wsP, slit "filho", Re.wb], str "meu acompanhante"),
   (seqs [Re.wb, slit "minha", wsP, slit "filha", Re.wb], str "minha acompanhante"),
   (seqs [Re.wb, slit "o", wsP, slit "filho", Re.wb], str "o acompanhante"),
   (seqs [Re.wb, slit "a", wsP, slit "filha", Re.wb], str "a acompanhante")]

/-- The `redundant_starts` list (source lines 654-661), `re.IGNORECASE`,
`^` without `re.MULTILINE`. -/
def redundantStarts : List Re :=
  [seqs [Re.bos, wsS, Re.lit 'o', wsP, slit "paciente", wsP],
   seqs [Re.bos, wsS, Re.lit 'a', wsP, slit "paciente", wsP],
   seqs [Re.bos, wsS, slit "um", wsP, slit "paciente", wsP],
   seqs [Re.bos, wsS, slit "uma", wsP, slit "paciente", wsP],
   seqs [Re.bos, wsS, slit "que", wsP],
   seqs [Re.bos, wsS, Re.lit 'e', wsP, slit "que", wsP]]

/-- The `filiation_patterns` list of `_is_file_already_correct`
(source lines 388-396), `re.IGNORECASE`. -/
def filiationCheckPatterns : List Re :=
  [seqs [nameWord, wsP, nameWord],
   seqs [digitsP, wsS, anosOpt],
   seqs [slit "sexo", wsP, alts [slit "masculino", slit "feminino"]],
   seqs [slit "gênero", wsP, alts [slit "masculino", slit "feminino"]],
   slit "profissão", slit "ocupação",
   seqs [slit "estado", wsP, slit "civil"],
   slit "procedência", slit "origem"]

/-!
## `_clean_description` (source lines 404-677)

Stage by stage, exactly in source order.  Step 1 of the source collects
`preserved_medical_parts` via `re.findall` but never uses the list, so it
has no effect and is not modelled.
-/

/-- Length of the first match among the ordered patterns (the source's
first-`re.search`-hit wins; the code then slices off `len(match.group(0))`
characters from the FRONT of the text, even though with `re.MULTILINE` the
match could start after a newline). -/
def firstMatchLen (ic : Bool) (ps : List Re) (s : Str) : Option Nat :=
  ps.findSome? (fun p => (reSearch ic p s).map Prod.snd)

/-- Step 2 (source lines 443-470): strip a leading filiation clause.  The
clinical-indicator scan is `^`-anchored without `re.MULTILINE`, so any hit
is at position 0 and both branches keep the whole remainder. -/
def cdStep2 (cleaned : Str) : Str :=
  match firstMatchLen true filiationStartPatterns cleaned with
  | none => cleaned
  | some len =>
      let remaining := pyStrip (cleaned.drop len)
      let clinicalStart :=
        if clinicalIndicators.any (fun ind => (reSearch true ind remaining).isSome) then 0
        else remaining.length
      let clinicalPart := pyStrip (remaining.drop clinicalStart)
      if clinicalPart.isEmpty then remaining else clinicalPart

/-- Step 3a (source lines 485-486): replace `Paciente <name words>` by
`Paciente`. -/
def cdStep3a (cleaned : Str) : Str :=
  patientNamePatterns.foldl (fun c p => reSub true p (str "Paciente") c) cleaned

/-- Step 3b (source lines 495-496): delete leading name-shaped words. -/
def cdStep3b (cleaned : Str) : Str :=
  startNamePatterns.foldl (fun c p => reSub true p [] c) cleaned

/-- Step 3c (source lines 504-505): delete isolated ages outside medical
contexts. -/
def cdStep3c (cleaned : Str) : Str :=
  scrubAgePatterns.foldl (fun c p => reSub true p [] c) cleaned

/-- Specialty keywords preserving a name after an honorific
(source line 526). -/
def medSpecialties : List Str :=
  [str "cardiologista", str "ortopedista", str "clínico", str "pediatra",
   str "ginecologista", str "cirurgião", str "médico", str "enfermeiro",
   str "profissional", str "especialista"]

/-- Per-match handling of a residual proper-name match
(source lines 518-534): keep the text when the context marks a treating
doctor, else erase every (case-sensitive) occurrence of the matched
text. -/
def processNameMatch (cleaned m : Str) : Str :=
  let idx := pyFind cleaned m
  let contextBefore := pyStrip (pySliceTo cleaned idx)
  let contextAfter := pyStrip (pySliceFrom cleaned (idx + (m.length : Int)))
  if (endsWithL contextBefore (str "Dr.") || endsWithL contextBefore (str "Dra.") ||
      endsWithL contextBefore (str "Dr") || endsWithL contextBefore (str "Dra")) &&
     medSpecialties.any (fun t => pyIn t (pyLower contextAfter)) then cleaned
  else if pyIn (str "é atendido pelo") (pyLower contextBefore) ||
          pyIn (str "atendido pela") (pyLower contextBefore) then cleaned
  else replaceAll m [] cleaned

/-- Step 3d (source lines 516-534): the residual-name removal loop
(`re.findall` without flags, then per-match context checks). -/
def cdStep3d (cleaned : Str) : Str :=
  remainingNamePatterns.foldl
    (fun c p => (reFindAll false p c).foldl processNameMatch c) cleaned

/-- Capturing-group extraction for the second age/gender pattern
(`sexo\s+(masculino|feminino),?...`): `re.findall` returns the group text,
which is the gender word as written after `sexo` and the whitespace. -/
def g2Group (whole : Str) : Str :=
  let afterSexo := (whole.drop 4).dropWhile isWs
  if startsWithL (pyLower afterSexo) (str "masculino") then afterSexo.take 9
  else afterSexo.take 8

/-- The `re.findall` results for one age/gender pattern: whole matches for
the group-free patterns, group texts for the second pattern (index 1). -/
def ageGenderFindAll (i : Nat) (p : Re) (c : Str) : List Str :=
  if i == 1 then (reFindAll true p c).map g2Group else reFindAll true p c

/-- Per-match handling in the age/gender loop (source lines 548-554):
keep when followed by a medical-context term, else erase all
case-insensitive occurrences of the matched text. -/
def processAgeGenderMatch (cleaned m : Str) : Str :=
  let contextAfter := pyStrip (pySliceFrom cleaned (pyFind cleaned m + (m.length : Int)))
  if [str "dor", str "febre", str "sintomas", str "queixa", str "história",
      str "antecedente"].any (fun t => pyIn t (pyLower contextAfter)) then cleaned
  else replaceAllCI m [] cleaned

/-- Step 4 (source lines 536-554): the age/gender removal loop. -/
def cdStep4 (cleaned : Str) : Str :=
  (ageGenderPatterns.enum.foldl
    (fun c pi => (ageGenderFindAll pi.fst pi.snd c).foldl processAgeGenderMatch c) cleaned)

/-- Per-match handling in the occupation loop (source lines 580-599). -/
def processOccupationMatch (cleaned m : Str) : Str :=
  let idx := pyFind (pyLower cleaned) (pyLower m)
  let contextBefore := pyStrip (pySliceTo cleaned idx)
  let contextAfter := pyStrip (pySliceFrom cleaned (idx + (m.length : Int)))
  if pyIn [','] contextBefore &&
     ([str "anos", str "idade"].any (fun t => pyIn t (pyLower contextBefore))) then cleaned
  else if [str "com dor", str "com febre", str "referindo", str "apresenta",
      str "queixa", str "diagnóstico"].any (fun t => pyIn t (pyLower contextAfter)) then
    cleaned
  else if (reSearch false (seqs [Re.wb, slit "ex", Re.cls (.un .space (.chs ['-']))])
      (pyLower (pySliceFrom contextBefore (-10)))).isSome then cleaned
  else replaceAllCI m [] cleaned

/-- Step 5 (source lines 578-599): the occupation removal loop. -/
def cdStep5 (cleaned : Str) : Str :=
  occupationPatterns.foldl
    (fun c p => (reFindAll true p c).foldl processOccupationMatch c) cleaned

/-- Step 6 (source lines 610-611): marital-status removal. -/
def cdStep6 (cleaned : Str) : Str :=
  maritalPatterns.foldl (fun c p => reSub true p [] c) cleaned

/-- Step 7 (source lines 623-624): origin removal. -/
def cdStep7 (cleaned : Str) : Str :=
  originPatterns.foldl (fun c p => reSub true p [] c) cleaned

/-- Step 8 (source lines 636-637): neutralize family references. -/
def cdStep8 (cleaned : Str) : Str :=
  contextReplacements.foldl (fun c pr => reSub true pr.fst pr.snd c) cleaned

/-- Step 9a (source lines 640-664): whitespace collapse, punctuation
repair, strip, leading-punctuation removal and redundant-start removal. -/
def cdStep9a (cleaned : Str) : Str :=
  let c := reSub false (Re.rep1 .space) (str " ") cleaned
  let c := reSub false (seqs [Re.lit ',', wsS, Re.lit ',']) (str ",") c
  let c := reSub false (seqs [Re.lit '.', wsS, Re.lit '.']) (str ".") c
  let c := reSub false (seqs [Re.lit ',', wsS, Re.lit '.']) (str ".") c
  let c := reSub false (seqs [wsS, Re.lit ',']) (str ",") c
  let c := pyStrip c
  let c := reSub false (Re.seq Re.bos (Re.rep1 (.un (.chs [',', '.']) .space))) [] c
  redundantStarts.foldl (fun c p => reSub true p [] c) c

/-- Python `cleaned[0].upper() + cleaned[1:]` (source lines 674-675):
uppercase the first character only. -/
def capFirst (s : Str) : Str :=
  match s with
  | [] => []
  | a :: as => upperCh a :: as

/-- Step 9b (source lines 666-675): guarantee the canonical opening and
capitalize the first letter. -/
def cdStep9b (cleaned : Str) : Str :=
  capFirst
    (if cleaned.isEmpty then str "Paciente"
     else if startsWithL (pyLower cleaned) (str "paciente") ||
             startsWithL (pyLower cleaned) (str "com dor") ||
             startsWithL (pyLower cleaned) (str "referindo") ||
             startsWithL (pyLower cleaned) (str "apresenta") ||
             startsWithL (pyLower cleaned) (str "queixa") then cleaned
     else str "Paciente " ++ cleaned)

/-- Model of `PatientDataCleaner._clean_description`
(source lines 404-677).  The `age` and `gender` parameters are unused by
the source body and kept for signature fidelity. -/
def clean_description (description : Str) (_age : Nat) (_gender : Str) : Str :=
  cdStep9b (cdStep9a (cdStep8 (cdStep7 (cdStep6 (cdStep5 (cdStep4 (cdStep3d
    (cdStep3c (cdStep3b (cdStep3a (cdStep2 description)))))))))))

/-- Model of `PatientDataCleaner._is_file_already_correct`
(source lines 379-402) restricted to its description check: `true` when no
filiation pattern matches (the structural check on the record happens in
`process_file`). -/
def description_already_correct (description : Str) : Bool :=
  !(filiationCheckPatterns.any (fun p => (reSearch true p description).isSome))

/-!
## Spec-side notions for claim C2
-/

/-- Spec-side canonicalization "up to whitespace and capitalization":
collapse whitespace runs, strip, lowercase. -/
def canonWsCase (s : Str) : Str :=
  pyLower (pyStrip (reSub false (Re.rep1 .space) (str " ") s))

/-- Spec-side predicate (from the spec's glossary of "filiation data"): the
description carries no identifying pattern — no age mention, no
proper-name-shaped word pair, no sex/gender phrase, no honorific, and none
of the occupation / marital-status / origin / kinship keywords that the
scrubber targets. -/
def identifierFree (d : Str) : Bool :=
  let l := pyLower d
  !(reSearch false (seqs [digitsP, wsS, anosOpt]) d).isSome &&
  !(reSearch false (seqs [nameWord, wsP, nameWord]) d).isSome &&
  !(pyIn (str "sexo ") l) && !(pyIn (str "gênero") l) &&
  !(pyIn (str "dona ") l) && !(pyIn (str "sr.") l) && !(pyIn (str "sra.") l) &&
  !(pyIn (str "dr.") l) &&
  ([str "motorista", str "cozinheir", str "professor", str "médic",
    str "enfermeir", str "engenheir", str "advogad", str "comerciante",
    str "empresári", str "funcionári", str "estudante", str "doméstic",
    str "aposentad", str "trabalhador rural", str "analista financeiro",
    str "pedreiro", str "casad", str "solteir", str "divorciad", str "viúv",
    str "separad", str "área rural", str "área urbana", str "cidade",
    str "capital", str "zona urbana", str "procedência", str "filho",
    str "filha"].all (fun kw => !(pyIn kw l)))

/-- Characters allowed by the plain-clinical-text fragment used in the
amended C2 theorem: lowercase ASCII letters and the space. -/
def lowerAlphaSpace (c : Char) : Bool :=
  ('a' ≤ c && c ≤ 'z') || c == ' '

/-- No two adjacent spaces. -/
def noDoubleSpace : Str → Bool
  | [] => true
  | [_] => true
  | a :: b :: t => !(a == ' ' && b == ' ') && noDoubleSpace (b :: t)

/-- The recognized clinical openers of the final normalization step
(source line 670). -/
def openers : List Str :=
  [str "com dor", str "referindo", str "apresenta", str "queixa"]

/-- ASCII keyword substrings whose absence (in the plain-clinical-text
fragment) makes every scrubber pattern fail. -/
def bannedKeywords : List Str :=
  [str "paciente", str "motorista", str "cozinheir", str "professor",
   str "enfermeir", str "engenheir", str "advogad", str "comerciante",
   str "estudante", str "aposentad", str "trabalhador", str "analista",
   str "pedreiro", str "casad", str "solteir", str "divorciad",
   str "separad", str "cidade", str "capital", str "zona", str "filho",
   str "filha"]

/-!
## Syntactic necessity certificates for patterns

`mustCls p t` checks that every successful match of `p` consumes at least
one character of class `t`; `mustLit p w` checks that every successful
match includes matching the literal chain `w` at some position.  Both are
computed syntactically over the pattern and verified by the soundness
lemmas below.
-/

/-- Every match of `p` consumes a character of class `t` (sound
syntactic approximation; classes count only when syntactically equal). -/
def mustCls (ic : Bool) : Re → CharCls → Bool
  | .lit c, t => clsMatch ic t c
  | .cls cc, t => cc == t
  | .seq a b, t => mustCls ic a t || mustCls ic b t
  | .alt a b, t => mustCls ic a t && mustCls ic b t
  | .rep1 cc, t => cc == t
  | _, _ => false

/-- Maximal leading literal chain of a pattern. -/
def leadLits : Re → Str
  | .lit c => [c]
  | .seq (.lit c) r => c :: leadLits r
  | _ => []

/-- Every match of `p` matches the literal string `w` (case-insensitively)
at some position (sound syntactic approximation: some mandatory subterm
starts with the chain `w`). -/
def mustLit : Re → Str → Bool
  | .seq a b, w =>
      startsWithL (pyLower (leadLits (Re.seq a b))) (pyLower w) ||
      mustLit a w || mustLit b w
  | .alt a b, w => mustLit a w && mustLit b w
  | p, w => startsWithL (pyLower (leadLits p)) (pyLower w)

/-!
## Spec-side gender-agreement dictionary (for claim C3)

The spec demands: "the grammatical gender of the word matches the
patient's gender".  This predicate is the spec's notion, written as a
dictionary over the occupation/marital words this program manipulates:
words with masculine grammatical gender, words with feminine grammatical
gender, and common-gender words (valid for both).
-/

/-- Occupation/marital words of masculine grammatical gender. -/
def masculineForms : List Str :=
  [str "trabalhador rural", str "aposentado", str "professor",
   str "enfermeiro", str "funcionário público", str "funcionário",
   str "estudante universitário", str "casado", str "solteiro",
   str "divorciado", str "viúvo", str "separado", str "advogado",
   str "médico", str "engenheiro", str "contador", str "cozinheiro",
   str "pedreiro"]

/-- Occupation/marital words of feminine grammatical gender. -/
def feminineForms : List Str :=
  [str "trabalhadora rural", str "aposentada", str "professora",
   str "enfermeira", str "funcionária pública", str "funcionária",
   str "estudante universitária", str "casada", str "solteira",
   str "divorciada", str "viúva", str "separada", str "advogada",
   str "médica", str "engenheira", str "contadora", str "cozinheira",
   str "doméstica"]

/-- Common-gender words, valid for both genders. -/
def commonForms : List Str :=
  [str "profissional liberal", str "profissional de escritório",
   str "estudante", str "comerciante", str "motorista"]

/-- Spec-side predicate: the word `w` agrees grammatically with lowercased
gender `g` (`"masculino"` or `"feminino"`); comparison is
case-insensitive. -/
def specGenderAgrees (g : Str) (w : Str) : Bool :=
  let wl := pyLower w
  if g == str "masculino" then (masculineForms ++ commonForms).contains wl
  else (feminineForms ++ commonForms).contains wl

/-- Spec-side domain for the amended C2 theorem: plain lowercase clinical
prose.  The description is non-empty, uses only lowercase ASCII letters and
single spaces, is stripped, opens with one of the recognized clinical
openers, and contains none of the ASCII keywords the scrubber targets
(its accented keywords are excluded already by the alphabet). -/
def plainClinicalText (d : Str) : Bool :=
  !d.isEmpty && d.all lowerAlphaSpace && noDoubleSpace d &&
  (pyStrip d == d) &&
  openers.any (fun o => startsWithL d o) &&
  bannedKeywords.all (fun kw => !(pyIn kw d))

/-!
## `process_file` (source lines 940-1104)

The JSON record is modelled by the three pieces `process_file` reads: the
`informacoesVerbaisSimulado` list (empty when the containing keys are
missing, as `data.get(..., {}).get(..., [])` yields), the
`descricaoCasoCompleta` narrative (`none` when `instrucoesParticipante` is
missing or lacks the key), and the station title (`''` default).  The age
and gender extractor `_extract_age_gender_from_description` is passed as a
function parameter; `random.random()` threshold comparisons are an oracle
boolean (at most one per run fires) and each `random.choice` an oracle
index, as elsewhere in this development.
-/

/-- Python truthiness of the extracted age (`None` and `0` are falsy). -/
def truthyNat (a : Option Nat) : Bool :=
  match a with
  | some n => decide (n ≠ 0)
  | none => false

/-- Python truthiness of the extracted gender (`None` and `''` are
falsy). -/
def truthyStr (s : Option Str) : Bool :=
  match s with
  | some v => !v.isEmpty
  | none => false

/-- The slice of the JSON record read and written by `process_file`. -/
structure Record where
  infos : List Info
  descricao : Option Str
  titulo : Str
deriving Repr, DecidableEq

/-- Outcome of `process_file`: the returned `(success, message)` pair, the
in-memory record afterwards, and whether the file was rewritten. -/
structure PFResult where
  success : Bool
  message : Str
  record : Record
  wrote : Bool
deriving Repr, DecidableEq

/-- Model of `PatientDataCleaner._is_file_already_correct`
(source lines 379-402): structure check, then the filiation-pattern scan of
the description (the source's false-case message also interpolates the
matching pattern literal; the caller only reads the message in the true
case). -/
def is_file_already_correct (rec : Record) : Bool × Str :=
  match rec.descricao with
  | none => (false, str "Arquivo sem estrutura completa")
  | some d =>
      if description_already_correct d then (true, str "Arquivo já está correto")
      else (false, str "Arquivo contém dados filiatórios")

/-- The identification-update loop of `process_file` (source lines
969-979): the FIRST entry tagged `IDENTIFICAÇÃO DO PACIENTE` is
re-normalized (the loop breaks after it); an empty normalization result
leaves the entry unchanged (`if cleaned_info:`). -/
def updateFirstIdent : List Info → List Info
  | [] => []
  | i :: is =>
      if i.contextoOuPerguntaChave == str "IDENTIFICAÇÃO DO PACIENTE" then
        (let cleaned := clean_existing_identification i.informacao
         if cleaned.isEmpty then i else { i with informacao := cleaned }) :: is
      else i :: updateFirstIdent is

/-- The epidemiological gender-inference chain of `process_file`
(source lines 998-1023 and 1036-1060; the two occurrences are verbatim
copies).  `coin` is the outcome of the single `random.random()` threshold
comparison of the branch taken, `true` meaning the comparison succeeded. -/
def genderFromDisease (disease : Str) (coin : Bool) : Str :=
  if pyIn (str "cistite") disease || pyIn (str "itu") disease then
    (if coin then str "feminino" else str "masculino")
  else if pyIn (str "câncer de mama") disease || pyIn (str "mastite") disease then
    str "feminino"
  else if pyIn (str "câncer de próstata") disease ||
          pyIn (str "hiperplasia prostática") disease then
    str "masculino"
  else if pyIn (str "gravidez") disease || pyIn (str "parto") disease ||
          pyIn (str "puerpério") disease then
    str "feminino"
  else if pyIn (str "câncer cervical") disease ||
          pyIn (str "câncer de colo uterino") disease then
    str "feminino"
  else if pyIn (str "endometriose") disease || pyIn (str "mioma") disease then
    str "feminino"
  else if pyIn (str "câncer de ovário") disease ||
          pyIn (str "câncer de endométrio") disease then
    str "feminino"
  else if pyIn (str "menopausa") disease || pyIn (str "osteoporose") disease then
    (if coin then str "feminino" else str "masculino")
  else if pyIn (str "avc") disease || pyIn (str "acidente vascular") disease then
    (if coin then str "masculino" else str "feminino")
  else if pyIn (str "infarto") disease || pyIn (str "angina") disease then
    (if coin then str "masculino" else str "feminino")
  else if pyIn (str "diabetes") disease || pyIn (str "cetoacidose") disease then
    (if coin then str "masculino" else str "feminino")
  else (if coin then str "feminino" else str "masculino")

/-- Model of `PatientDataCleaner.process_file` (source lines 940-1104).
`extract` is `_extract_age_gender_from_description`; `kAge`, `kOcc`,
`kMar`, `kName` are the `random.choice` oracles of the inference calls and
the name draw; `coin` the `random.random()` oracle of the (single) gender
inference that may run.  A `KeyError`/`IndexError` escaping
`_get_random_name` is caught by the enclosing `except` (source line 1102);
the file is written only on the success path (source lines 1090-1091). -/
def process_file (rec : Record) (db : List NameCategory) (tr : Tracker)
    (extract : Str → Option Nat × Option Str)
    (kAge kOcc kMar kName : Nat) (coin : Bool) : PFResult :=
  let dup := check_duplicate_identification rec.infos
  if dup.fst then
    { success := false
      message := str "Arquivo contém " ++ natToStr dup.snd ++
        str " campos 'IDENTIFICAÇÃO DO PACIENTE' (duplicatas detectadas)"
      record := rec
      wrote := false }
  else
    let hasIdent := decide (0 < dup.snd)
    if !hasIdent && (is_file_already_correct rec).fst then
      { success := false
        message := str "Arquivo já está correto: " ++ (is_file_already_correct rec).snd
        record := rec
        wrote := false }
    else
      match rec.descricao with
      | none =>
          { success := false
            message := str "Arquivo não tem estrutura completa (falta instrucoesParticipante ou descricaoCasoCompleta)"
            record := rec
            wrote := false }
      | some description =>
          let infos1 := if hasIdent then updateFirstIdent rec.infos else rec.infos
          let eg := extract description
          let disease := pyLower rec.titulo
          -- if not age: (if gender: age = infer) (else: gender, then age)
          let g2 : Option Str :=
            if !truthyNat eg.fst then
              (if truthyStr eg.snd then eg.snd
               else some (genderFromDisease disease coin))
            else eg.snd
          let a2 : Option Nat :=
            if !truthyNat eg.fst then
              some (infer_age_from_context rec.titulo (g2.getD []) kAge)
            else eg.fst
          -- if age and not gender: gender = infer
          let g3 : Option Str :=
            if truthyNat a2 && !truthyStr g2 then
              some (genderFromDisease disease coin)
            else g2
          if !truthyNat a2 || !truthyStr g3 then
            { success := false
              message := str "Não foi possível extrair idade ou gênero da descrição: " ++
                description.take 100 ++ str "..."
              record := { rec with infos := infos1 }
              wrote := false }
          else
            let age := a2.getD 0
            let gender := g3.getD []
            match get_random_name db tr (get_name_category age gender) kName with
            | .error _ =>
                -- the `except Exception` handler; the exception text is abstracted
                { success := false
                  message := str "Erro ao processar arquivo: "
                  record := { rec with infos := infos1 }
                  wrote := false }
            | .ok (name, _) =>
                let occupation := infer_occupation age rec.titulo gender kOcc
                let marital := infer_marital_status age gender kMar
                let origin := infer_origin rec.titulo
                let field := create_identification_field name age gender occupation
                  marital origin (some rec.titulo)
                let infos2 := if hasIdent then infos1 else field :: infos1
                let cleaned := clean_description description age gender
                let genderInfo : Str :=
                  if is_lgbt_relevant_theme rec.titulo then str "com gênero"
                  else str "sem gênero"
                { success := true
                  message :=
                    if hasIdent then
                      str "Arquivo atualizado com sucesso. Correções de gênero aplicadas (" ++
                        genderInfo ++ str ")"
                    else
                      str "Arquivo processado com sucesso. Nome: " ++ name ++
                        str ", Idade: " ++ natToStr age ++ str ", Gênero: " ++ gender ++
                        str " (" ++ genderInfo ++ str ")"
                  record := { rec with infos := infos2, descricao := some cleaned }
                  wrote := true }

/-- `generate_report`'s duplicate-bucket classifier (source line 1149):
the message contains `duplicatas detectadas` (lowercased). -/
def msgIsDuplicateFlag (m : Str) : Bool :=
  pyIn (str "duplicatas detectadas") (pyLower m)

/-- `generate_report`'s generic-error classifier (source lines 1193-1199):
a message belongs to the error bucket iff it carries none of the three
outcome markers. -/
def msgIsError (m : Str) : Bool :=
  !(pyIn (str "sucesso") (pyLower m) || pyIn (str "já está correto") (pyLower m) ||
    pyIn (str "duplicatas detectadas") (pyLower m))

end Anonymizer

namespace Anonymizer

/-! ## Helper lemmas about the string primitives -/

theorem splitChar_eq_single {c : Char} {s : Str} (h : ∀ a ∈ s, a ≠ c) :
    splitChar c s = [s] := by
  induction s with
  | nil => rfl
  | cons a as ih =>
      have ha : a ≠ c := h a (List.mem_cons_self a as)
      have ih' := ih (fun x hx => h x (List.mem_cons_of_mem a hx))
      simp [splitChar, ih', ha]

theorem splitChar_append {c : Char} {xs ys : Str} (h : ∀ a ∈ xs, a ≠ c) :
    splitChar c (xs ++ c :: ys) = xs :: splitChar c ys := by
  induction xs with
  | nil => simp [splitChar]
  | cons a as ih =>
      have ha : a ≠ c := h a (List.mem_cons_self a as)
      have ih' := ih (fun x hx => h x (List.mem_cons_of_mem a hx))
      show splitChar c (a :: (as ++ c :: ys)) = (a :: as) :: splitChar c ys
      rw [splitChar, ih']
      simp [ha]

theorem pyIn_single_eq_false {c : Char} {s : Str} (h : ∀ a ∈ s, a ≠ c) :
    pyIn [c] s = false := by
  induction s with
  | nil => rfl
  | cons a as ih =>
      have ha : a ≠ c := h a (List.mem_cons_self a as)
      have ih' := ih (fun x hx => h x (List.mem_cons_of_mem a hx))
      simp [pyIn, startsWithL, ih', ha]

theorem dropWhile_head_not {p : Char → Bool} {s : Str}
    (h : ∀ c, s.head? = some c → p c = false) : s.dropWhile p = s := by
  cases s with
  | nil => rfl
  | cons a as =>
      have := h a rfl
      simp [List.dropWhile, this]

theorem pyStrip_eq_self {s : Str}
    (h1 : ∀ c, s.head? = some c → isWs c = false)
    (h2 : ∀ c, s.getLast? = some c → isWs c = false) : pyStrip s = s := by
  unfold pyStrip
  rw [dropWhile_head_not h1]
  rw [dropWhile_head_not (p := isWs) (s := s.reverse)]
  · exact List.reverse_reverse s
  · intro c hc
    apply h2
    rwa [List.head?_reverse] at hc

theorem pyStrip_cons_space {s : Str} (h : pyStrip s = s) :
    pyStrip (' ' :: s) = s := by
  unfold pyStrip at *
  have : List.dropWhile isWs (' ' :: s) = List.dropWhile isWs s := by
    simp [List.dropWhile, isWs]
  rw [this]
  exact h

theorem updateFromCommaLine_four (ev : ExtractedValues) (line p0 p1 p2 p3 : Str)
    (h : (splitChar ',' line).map pyStrip = [p0, p1, p2, p3])
    (hanos : pyIn (str "anos") p1 = true) :
    updateFromCommaLine ev line =
      updateFromLastPart
        { ev with nome := some p0, idade := some p1, genero := some p2 } p3 := by
  unfold updateFromCommaLine
  rw [h]
  norm_num [hanos, List.getD, List.getLastD]

theorem updateFromLastPart_occ (ev : ExtractedValues) (lp o e : Str)
    (hsp : splitOnceSub (str " e ") lp = some (o, e))
    (hso : pyStrip o = o) (hse : pyStrip e = e)
    (hnm : maritalStatuses.contains (pyLower o) = false) :
    updateFromLastPart ev lp = { ev with ocupacao := some o, estado_civil := some e } := by
  unfold updateFromLastPart
  rw [hsp]
  simp only [hso, hse, hnm, Bool.false_eq_true, if_false]
  split <;> rfl

/-! ## C1: idempotence of identification-block normalization -/

set_option maxHeartbeats 2000000
set_option maxRecDepth 100000

/-- Claim C1, counterexample.  The block
`"João Santos, 70 anos, Aposentado e Viúvo"` is in the normalizer's output
form (first conjunct: it is literally what `_clean_existing_identification`
produces from a legacy colon-format block without a gender line), yet
re-normalizing it yields the empty string instead of the block itself
(second conjunct): with no gender field the serialized sentence has only
three comma-separated parts, the comma-format parser requires at least four,
no field is extracted, and the function returns `""`. -/
theorem C1_counterexample :
    clean_existing_identification
      (str "Nome: João Santos\nIdade: 70 anos\nOcupação: Aposentado\nEstado Civil: Viúvo")
      = str "João Santos, 70 anos, Aposentado e Viúvo" ∧
    clean_existing_identification (str "João Santos, 70 anos, Aposentado e Viúvo")
      ≠ str "João Santos, 70 anos, Aposentado e Viúvo" := by
  constructor
  · decide
  · decide

/-- Claim C1, amended.  Idempotence holds for normalized blocks carrying all
five standard fields — `"nome, idade, genero, ocupacao e estado_civil"` —
when the fields are clean serializable values, the age part contains
`"anos"`, the occupation part is not mistakable for a marital status and
parses back as the occupation, and the gender-agreement correction passes
fix the block (which is always the case once the normalizer has corrected
it).  Blocks whose serialized form has fewer than four comma-separated
parts (no gender field) or more than four (a `procedência` field) are NOT
mapped to themselves, as the counterexample shows. -/
theorem C1_amended_idempotent (nome idade genero ocup estado : Str)
    (h1 : cleanFieldValue nome) (h2 : cleanFieldValue idade)
    (h3 : cleanFieldValue genero) (h4 : cleanFieldValue ocup)
    (h5 : cleanFieldValue estado)
    (hanos : pyIn (str "anos") idade = true)
    (hsplit : splitOnceSub (str " e ") (ocup ++ str " e " ++ estado) = some (ocup, estado))
    (hnotms : maritalStatuses.contains (pyLower ocup) = false)
    (hfixM : fixMarital ⟨nome, idade, genero, ocup, estado, none⟩ =
             ⟨nome, idade, genero, ocup, estado, none⟩)
    (hfixO : fixOccupation ⟨nome, idade, genero, ocup, estado, none⟩ =
             ⟨nome, idade, genero, ocup, estado, none⟩)
    (hd1 : nome ≠ nomeDefault) (hd2 : idade ≠ idadeDefault)
    (hd3 : genero ≠ generoDefault) (hd4 : ocup ≠ ocupacaoDefault)
    (hd5 : estado ≠ estadoCivilDefault) :
    clean_existing_identification
      (nome ++ str ", " ++ idade ++ str ", " ++ genero ++ str ", " ++
       ocup ++ str " e " ++ estado) =
    nome ++ str ", " ++ idade ++ str ", " ++ genero ++ str ", " ++
      ocup ++ str " e " ++ estado := by
  obtain ⟨hne1, hch1, hhd1, hlt1⟩ := h1
  obtain ⟨hne2, hch2, hhd2, hlt2⟩ := h2
  obtain ⟨hne3, hch3, hhd3, hlt3⟩ := h3
  obtain ⟨hne4, hch4, hhd4, hlt4⟩ := h4
  obtain ⟨hne5, hch5, hhd5, hlt5⟩ := h5
  have e1 : str ", " = [',', ' '] := rfl
  have e2 : str " e " = [' ', 'e', ' '] := rfl
  set B : Str := nome ++ str ", " ++ idade ++ str ", " ++ genero ++ str ", " ++
      ocup ++ str " e " ++ estado with hB
  have hBr : B = nome ++ (',' :: ((' ' :: idade) ++ (',' :: ((' ' :: genero) ++
      (',' :: (' ' :: (ocup ++ (str " e " ++ estado)))))))) := by
    rw [hB, e1]; simp [List.append_assoc]
  -- membership decomposition for B
  have hBmem : ∀ a ∈ B, a ∈ nome ∨ a ∈ idade ∨ a ∈ genero ∨ a ∈ ocup ∨
      a ∈ estado ∨ a = ',' ∨ a = ' ' ∨ a = 'e' := by
    intro a ha
    rw [hBr] at ha
    simp only [List.mem_append, List.mem_cons, e2] at ha
    tauto
  -- B is non-empty
  have hBnil : B ≠ [] := by
    rw [hBr]; intro hcontra
    rcases List.append_eq_nil.mp hcontra with ⟨-, h⟩
    exact List.cons_ne_nil _ _ h
  have hBempty : B.isEmpty = false := by
    cases hBl : B with
    | nil => exact absurd hBl hBnil
    | cons c cs => rfl
  -- no newline, no colon in B
  have hnl : ∀ a ∈ B, a ≠ '\n' := by
    intro a ha
    rcases hBmem a ha with h | h | h | h | h | h | h | h
    · exact (hch1 a h).2.1
    · exact (hch2 a h).2.1
    · exact (hch3 a h).2.1
    · exact (hch4 a h).2.1
    · exact (hch5 a h).2.1
    all_goals (subst h; decide)
  have hcolon : ∀ a ∈ B, a ≠ ':' := by
    intro a ha
    rcases hBmem a ha with h | h | h | h | h | h | h | h
    · exact (hch1 a h).2.2
    · exact (hch2 a h).2.2
    · exact (hch3 a h).2.2
    · exact (hch4 a h).2.2
    · exact (hch5 a h).2.2
    all_goals (subst h; decide)
  -- B strips to itself
  have hheadB : ∀ c, B.head? = some c → isWs c = false := by
    intro c hc
    rw [hBr, List.head?_append_of_ne_nil _ hne1] at hc
    exact hhd1 c hc
  have hlastB : ∀ c, B.getLast? = some c → isWs c = false := by
    intro c hc
    rw [hB] at hc
    rw [List.getLast?_append_of_ne_nil _ hne5] at hc
    exact hlt5 c hc
  have hstripB : pyStrip B = B := pyStrip_eq_self hheadB hlastB
  -- parse phase: the single line B goes through the comma-format parser
  have hparse0 : parseIdentification B = updateFromCommaLine ExtractedValues.empty B := by
    unfold parseIdentification
    rw [splitChar_eq_single hnl]
    simp only [List.map_cons, List.map_nil, hstripB]
    rw [List.filter_cons]
    simp only [hBempty, Bool.not_false, if_true, List.filter_nil]
    simp only [List.any_cons, List.any_nil, pyIn_single_eq_false hcolon,
      Bool.or_false, Bool.false_eq_true, if_false]
    simp [List.foldl]
  -- splitting B at the commas
  have hsplitB : (splitChar ',' B).map pyStrip =
      [nome, idade, genero, ocup ++ (str " e " ++ estado)] := by
    rw [hBr]
    rw [splitChar_append (fun a ha => (hch1 a ha).1)]
    rw [splitChar_append (fun a ha => by
      rcases List.mem_cons.mp ha with h | h
      · subst h; decide
      · exact (hch2 a h).1)]
    rw [splitChar_append (fun a ha => by
      rcases List.mem_cons.mp ha with h | h
      · subst h; decide
      · exact (hch3 a h).1)]
    rw [splitChar_eq_single (fun a ha => by
      simp only [List.mem_cons, List.mem_append, e2, List.not_mem_nil, or_false] at ha
      rcases ha with h | h | (h | h | h) | h
      · subst h; decide
      · exact (hch4 a h).1
      · subst h; decide
      · subst h; decide
      · subst h; decide
      · exact (hch5 a h).1)]
    have s1 : pyStrip nome = nome := pyStrip_eq_self hhd1 hlt1
    have s2 : pyStrip (' ' :: idade) = idade :=
      pyStrip_cons_space (pyStrip_eq_self hhd2 hlt2)
    have s3 : pyStrip (' ' :: genero) = genero :=
      pyStrip_cons_space (pyStrip_eq_self hhd3 hlt3)
    have s4 : pyStrip (' ' :: (ocup ++ (str " e " ++ estado))) =
        ocup ++ (str " e " ++ estado) := by
      apply pyStrip_cons_space
      apply pyStrip_eq_self
      · intro c hc
        rw [List.head?_append_of_ne_nil _ hne4] at hc
        exact hhd4 c hc
      · intro c hc
        rw [List.getLast?_append_of_ne_nil _ (by
          intro hcontra
          rcases List.append_eq_nil.mp hcontra with ⟨-, h⟩
          exact hne5 h)] at hc
        rw [List.getLast?_append_of_ne_nil _ hne5] at hc
        exact hlt5 c hc
    simp [s1, s2, s3, s4]
  -- the comma-format parse result
  have hsplit' : splitOnceSub (str " e ") (ocup ++ (str " e " ++ estado)) =
      some (ocup, estado) := by
    rw [← List.append_assoc]; exact hsplit
  have hparse : parseIdentification B =
      ⟨some nome, some idade, some genero, some ocup, some estado, none⟩ := by
    rw [hparse0]
    rw [updateFromCommaLine_four ExtractedValues.empty B nome idade genero
      (ocup ++ (str " e " ++ estado)) hsplitB hanos]
    rw [updateFromLastPart_occ _ _ _ _ hsplit'
      (pyStrip_eq_self hhd4 hlt4) (pyStrip_eq_self hhd5 hlt5) hnotms]
    rfl
  -- defaults phase keeps the parsed values
  have hval : ∀ (v : Str), v ≠ [] → ∀ d, orDefault (some v) d = v := by
    intro v hv d
    unfold orDefault
    cases v with
    | nil => exact absurd rfl hv
    | cons a as => rfl
  have hfill : applyDefaults ⟨some nome, some idade, some genero, some ocup, some estado, none⟩ =
      ⟨nome, idade, genero, ocup, estado, none⟩ := by
    unfold applyDefaults
    rw [hval nome hne1, hval idade hne2, hval genero hne3, hval ocup hne4, hval estado hne5]
  -- assemble
  have hb1 : (nome == nomeDefault) = false := beq_eq_false_iff_ne.mpr hd1
  have hb2 : (idade == idadeDefault) = false := beq_eq_false_iff_ne.mpr hd2
  have hb3 : (genero == generoDefault) = false := beq_eq_false_iff_ne.mpr hd3
  have hb4 : (ocup == ocupacaoDefault) = false := beq_eq_false_iff_ne.mpr hd4
  have hb5 : (estado == estadoCivilDefault) = false := beq_eq_false_iff_ne.mpr hd5
  have hvl : valuesList ⟨nome, idade, genero, ocup, estado, none⟩ =
      [nome, idade, genero, ocup, estado] := by
    unfold valuesList
    rw [hb1, hb2, hb3, hb4, hb5]
    simp
  unfold clean_existing_identification
  rw [hBempty]
  simp only [Bool.false_eq_true, if_false]
  rw [hparse, hfill, hfixM, hfixO, hvl]
  rw [hB]
  simp [serializeValues, joinSep, List.append_assoc]

/-- Witness for the amended C1 theorem at the five-field block
`"João Santos, 70 anos, masculino, Aposentado e Viúvo"`. -/
theorem C1_amended_idempotent_witness :
    clean_existing_identification
      (str "João Santos" ++ str ", " ++ str "70 anos" ++ str ", " ++ str "masculino" ++
       str ", " ++ str "Aposentado" ++ str " e " ++ str "Viúvo") =
    str "João Santos" ++ str ", " ++ str "70 anos" ++ str ", " ++ str "masculino" ++
      str ", " ++ str "Aposentado" ++ str " e " ++ str "Viúvo" :=
  C1_amended_idempotent (str "João Santos") (str "70 anos") (str "masculino")
    (str "Aposentado") (str "Viúvo")
    (by decide) (by decide) (by decide) (by decide) (by decide)
    (by decide) (by decide) (by decide) (by decide) (by decide)
    (by decide) (by decide) (by decide) (by decide) (by decide)

/-! ## Helper lemmas for choice membership -/

theorem pyChoice_mem (k : Nat) (l : List Str) (h : l ≠ []) : pyChoice k l ∈ l := by
  unfold pyChoice
  have hl : 0 < l.length := List.length_pos.mpr h
  have hlt : k % l.length < l.length := Nat.mod_lt _ hl
  rw [List.getD_eq_getElem?_getD, List.getElem?_eq_getElem hlt]
  exact List.getElem_mem _

theorem agrees_of_mem {g w : Str} {l : List Str}
    (hall : l.all (fun x => specGenderAgrees g x) = true) (hw : w ∈ l) :
    specGenderAgrees g w = true := by
  rw [List.all_eq_true] at hall
  exact hall w hw

/-! ## C3: gender agreement of synthesized and corrected attributes -/

/-- Claim C3, counterexample.  The correction step of
`_clean_existing_identification` does not guarantee gender agreement: for a
feminine block carrying the masculine form `"separado"` as marital status,
no entry of the feminine correction table matches (`separado`/`separada`
are absent from it), so the masculine word survives in the output.  (The
occupation `professora` is corrected, so the function did reach its
correction phase.) -/
theorem C3_counterexample :
    clean_existing_identification
      (str "Maria Silva, 34 anos, feminino, professora e separado")
      = str "Maria Silva, 34 anos, feminino, Professora e separado" ∧
    (fixOccupation (fixMarital (applyDefaults (parseIdentification
      (str "Maria Silva, 34 anos, feminino, professora e separado"))))).estado_civil
      = str "separado" ∧
    specGenderAgrees (str "feminino") (str "separado") = false := by
  refine ⟨by decide, by decide, by decide⟩

/-- Claim C3, amended.  The inference functions `_infer_occupation` and
`_infer_marital_status` always return gender-agreed words for gender in
{masculino, feminino} (first two conjuncts, for every age, title and random
outcome).  The correction step of `_clean_existing_identification`
guarantees agreement only when the status (resp. occupation) matches an
entry of its fixed correction table (last conjunct); unmatched words such
as `separado` pass through unchanged, as the counterexample shows. -/
theorem C3_amended_gender_agreement :
    (∀ (age : Nat) (title g : Str) (k : Nat),
        pyLower g = str "masculino" ∨ pyLower g = str "feminino" →
        specGenderAgrees (pyLower g) (infer_occupation age title g k) = true) ∧
    (∀ (age : Nat) (g : Str) (k : Nat),
        pyLower g = str "masculino" ∨ pyLower g = str "feminino" →
        specGenderAgrees (pyLower g) (infer_marital_status age g k) = true) ∧
    (∀ fv : FilledValues,
        (pyLower fv.genero = str "masculino" →
          ((maritalCorrMasc.find? (fun p => p.fst == pyLower fv.estado_civil)).isSome →
            specGenderAgrees (str "masculino") (fixMarital fv).estado_civil = true) ∧
          ((occupationCorrMasc.find? (fun p => pyIn p.fst (pyLower fv.ocupacao))).isSome →
            specGenderAgrees (str "masculino") (fixOccupation fv).ocupacao = true)) ∧
        (pyLower fv.genero = str "feminino" →
          ((maritalCorrFem.find? (fun p => p.fst == pyLower fv.estado_civil)).isSome →
            specGenderAgrees (str "feminino") (fixMarital fv).estado_civil = true) ∧
          ((occupationCorrFem.find? (fun p => pyIn p.fst (pyLower fv.ocupacao))).isSome →
            specGenderAgrees (str "feminino") (fixOccupation fv).ocupacao = true))) := by
  refine ⟨?_, ?_, ?_⟩
  · intro age title g k hg
    rcases hg with hg | hg
    · unfold infer_occupation
      rw [hg]
      have hmm : (str "masculino" == str "masculino") = true := by decide
      have hmf : (str "masculino" == str "feminino") = false := by decide
      simp only [hmm, hmf, eq_self_iff_true, Bool.false_eq_true, if_true, if_false]
      split_ifs <;> first
        | decide
        | (refine agrees_of_mem ?_ (pyChoice_mem _ _ ?_) <;> decide)
    · unfold infer_occupation
      rw [hg]
      have hfm : (str "feminino" == str "masculino") = false := by decide
      have hff : (str "feminino" == str "feminino") = true := by decide
      simp only [hfm, hff, Bool.false_eq_true, eq_self_iff_true, if_false, if_true]
      split_ifs <;> first
        | decide
        | (refine agrees_of_mem ?_ (pyChoice_mem _ _ ?_) <;> decide)
  · intro age g k hg
    rcases hg with hg | hg
    · unfold infer_marital_status
      rw [hg]
      have hmm : (str "masculino" == str "masculino") = true := by decide
      simp only [hmm, eq_self_iff_true, if_true]
      split_ifs <;> first
        | decide
        | (refine agrees_of_mem ?_ (pyChoice_mem _ _ ?_) <;> decide)
    · unfold infer_marital_status
      rw [hg]
      have hfm : (str "feminino" == str "masculino") = false := by decide
      simp only [hfm, Bool.false_eq_true, if_false]
      split_ifs <;> first
        | decide
        | (refine agrees_of_mem ?_ (pyChoice_mem _ _ ?_) <;> decide)
  · intro fv
    constructor
    · intro hg
      constructor
      · intro hfind
        rw [Option.isSome_iff_exists] at hfind
        obtain ⟨p, hp⟩ := hfind
        have hpmem := List.mem_of_find?_eq_some hp
        unfold fixMarital
        rw [hg]
        simp only [beq_self_eq_true, Bool.true_or, if_true, hp]
        have : ∀ q ∈ maritalCorrMasc, specGenderAgrees (str "masculino") q.snd = true := by
          decide
        exact this p hpmem
      · intro hfind
        rw [Option.isSome_iff_exists] at hfind
        obtain ⟨p, hp⟩ := hfind
        have hpmem := List.mem_of_find?_eq_some hp
        unfold fixOccupation
        rw [hg]
        simp only [beq_self_eq_true, Bool.true_or, if_true, hp]
        have : ∀ q ∈ occupationCorrMasc, specGenderAgrees (str "masculino") q.snd = true := by
          decide
        exact this p hpmem
    · intro hg
      constructor
      · intro hfind
        rw [Option.isSome_iff_exists] at hfind
        obtain ⟨p, hp⟩ := hfind
        have hpmem := List.mem_of_find?_eq_some hp
        unfold fixMarital
        rw [hg]
        simp only [beq_self_eq_true, Bool.or_true, if_true, hp]
        have hne : (str "feminino" == str "masculino") = false := by decide
        rw [hne]
        simp only [Bool.false_eq_true, if_false, hp]
        have : ∀ q ∈ maritalCorrFem, specGenderAgrees (str "feminino") q.snd = true := by
          decide
        exact this p hpmem
      · intro hfind
        rw [Option.isSome_iff_exists] at hfind
        obtain ⟨p, hp⟩ := hfind
        have hpmem := List.mem_of_find?_eq_some hp
        unfold fixOccupation
        rw [hg]
        simp only [beq_self_eq_true, Bool.or_true, if_true, hp]
        have hne : (str "feminino" == str "masculino") = false := by decide
        rw [hne]
        simp only [Bool.false_eq_true, if_false, hp]
        have : ∀ q ∈ occupationCorrFem, specGenderAgrees (str "feminino") q.snd = true := by
          decide
        exact this p hpmem

/-- Witness for the amended C3 theorem: concrete instantiations of each
conjunct. -/
theorem C3_amended_gender_agreement_witness :
    specGenderAgrees (pyLower (str "masculino"))
      (infer_occupation 70 (str "Cistite não complicada") (str "masculino") 0) = true ∧
    specGenderAgrees (pyLower (str "feminino"))
      (infer_marital_status 30 (str "feminino") 1) = true ∧
    specGenderAgrees (str "masculino")
      (fixMarital ⟨str "João", str "70 anos", str "masculino",
        str "Professor", str "viúva", none⟩).estado_civil = true :=
  ⟨C3_amended_gender_agreement.1 70 (str "Cistite não complicada") (str "masculino") 0
      (Or.inl (by decide)),
   C3_amended_gender_agreement.2.1 30 (str "feminino") 1 (Or.inr (by decide)),
   ((C3_amended_gender_agreement.2.2 ⟨str "João", str "70 anos", str "masculino",
      str "Professor", str "viúva", none⟩).1 (by decide)).1 (by decide)⟩

/-! ## C4: name selection by age-band and gender category -/

/-- Claim C4 is a code bug: the membership test at source line 74 compares
the category string against a list of category dicts and is always false,
so `_get_random_name` always takes the fallback branch.  Here the requested
child/masculine category exists in the database with the non-empty pool
`["Pedro Henrique"]` (third conjunct), yet the drawn name is
`"José Carlos"` from the per-gender fallback pool (second conjunct), not a
member of the requested pool (fourth conjunct). -/
theorem C4_name_always_fallback :
    get_name_category 10 (str "masculino")
      = str "Nomes Masculinos Mais Comuns (recém-nascidos, crianças e pré-adolescentes)" ∧
    ((get_random_name
      [⟨str "Nomes Masculinos Mais Comuns (recém-nascidos, crianças e pré-adolescentes)",
        [str "Pedro Henrique"]⟩, ⟨fallbackMasc, [str "José Carlos"]⟩]
      (initTracker
        [⟨str "Nomes Masculinos Mais Comuns (recém-nascidos, crianças e pré-adolescentes)",
          [str "Pedro Henrique"]⟩, ⟨fallbackMasc, [str "José Carlos"]⟩])
      (get_name_category 10 (str "masculino")) 0).toOption.map Prod.fst)
      = some (str "José Carlos") ∧
    ([⟨str "Nomes Masculinos Mais Comuns (recém-nascidos, crianças e pré-adolescentes)",
        [str "Pedro Henrique"]⟩,
       (⟨fallbackMasc, [str "José Carlos"]⟩ : NameCategory)].find?
      (fun c => c.titulo == get_name_category 10 (str "masculino"))).isSome = true ∧
    ¬ (str "José Carlos" ∈ [str "Pedro Henrique"]) := by
  refine ⟨by decide, by decide, by decide, by decide⟩

/-! ## C6: gender-disclosure policy -/

/-- Claim C6, confirmed.  For every built identification block (the process
always passes a context dict, which is non-empty and hence truthy), the
block has a line starting with `"Gênero:"` exactly when the case title is
LGBT/sexual-health relevant.  All other lines start with their own fixed
field prefixes, so no other line can start with `"Gênero:"`, whatever the
field values are. -/
theorem C6_gender_disclosure (name : Str) (age : Nat) (gender occupation marital : Str)
    (origin : Option Str) (t : Str) :
    ((create_identification_lines name age gender occupation marital origin (some t)).any
        (fun l => startsWithL l (str "Gênero:"))) = is_lgbt_relevant_theme t := by
  unfold create_identification_lines
  rcases origin with _ | o <;> cases hlg : is_lgbt_relevant_theme t <;>
    simp only [hlg] <;> rfl

/-! ## C5: no repetition until pool exhaustion -/

/-- Single-step equation for `_get_random_name` on a database holding just
the masculine fallback category with pool `P` (the pool every draw actually
uses, because of the always-taken fallback): if some pool name is unused it
is drawn and recorded, else the used set resets to just the fresh draw. -/
theorem contains_iff_memL {l : List Str} {a : Str} : l.contains a = true ↔ a ∈ l := by
  simp

theorem draw_step (P used : List Str) (k : Nat) (hP : P.isEmpty = false) :
    get_random_name [⟨fallbackMasc, P⟩] [(fallbackMasc, used)] fallbackMasc k =
      (if (P.filter (fun n => !(used.contains n))).isEmpty then
        .ok (pyChoice k P, [(fallbackMasc, [pyChoice k P])])
      else
        .ok (pyChoice k (P.filter (fun n => !(used.contains n))),
             [(fallbackMasc, pyChoice k (P.filter (fun n => !(used.contains n))) :: used)])) := by
  have hres : resolveCategory [⟨fallbackMasc, P⟩] fallbackMasc = fallbackMasc := rfl
  have hfind : ([⟨fallbackMasc, P⟩] : List NameCategory).find?
      (fun c => c.titulo == fallbackMasc) = some ⟨fallbackMasc, P⟩ := rfl
  have hlook : lookupT [(fallbackMasc, used)] fallbackMasc = some used := rfl
  unfold get_random_name
  rw [hres]
  dsimp only
  rw [hfind]
  dsimp only
  simp only [hP, Bool.false_eq_true, if_false, hlook]
  have hupd : ∀ v, updateT [(fallbackMasc, used)] fallbackMasc v = [(fallbackMasc, v)] := by
    intro v
    unfold updateT
    simp
  by_cases hav : (P.filter (fun n => !(used.contains n))).isEmpty = true
  · simp only [hav, if_true, hupd]
  · rw [Bool.not_eq_true] at hav
    simp only [hav, Bool.false_eq_true, if_false, hupd]

/-- Invariant of a draw run over the fallback pool `P`: starting from a
used set that is a duplicate-free part of `P` with enough names left, every
requested draw succeeds, the outputs are pairwise distinct fresh pool
names, and the tracker records exactly the issued names. -/
theorem drawTrace_inv (P : List Str) (hPnd : P.Nodup)
    (ks : List Nat) (used : List Str) (hsub : ∀ u ∈ used, u ∈ P) (hund : used.Nodup)
    (hlen : ks.length + used.length ≤ P.length) :
    (drawTrace [⟨fallbackMasc, P⟩] fallbackMasc ks [(fallbackMasc, used)]).fst.length
        = ks.length ∧
    (drawTrace [⟨fallbackMasc, P⟩] fallbackMasc ks [(fallbackMasc, used)]).fst.Nodup ∧
    (∀ n ∈ (drawTrace [⟨fallbackMasc, P⟩] fallbackMasc ks [(fallbackMasc, used)]).fst,
        n ∈ P ∧ n ∉ used) ∧
    (drawTrace [⟨fallbackMasc, P⟩] fallbackMasc ks [(fallbackMasc, used)]).snd
        = [(fallbackMasc,
            (drawTrace [⟨fallbackMasc, P⟩] fallbackMasc ks [(fallbackMasc, used)]).fst.reverse
              ++ used)] := by
  induction ks generalizing used with
  | nil => simp [drawTrace]
  | cons k ks ih =>
      have hPne : P ≠ [] := by
        intro hcontra
        rw [hcontra] at hlen
        simp only [List.length_cons, List.length_nil] at hlen
        omega
      have hPempty : P.isEmpty = false := by
        cases P with
        | nil => exact absurd rfl hPne
        | cons a as => rfl
      -- the used set is strictly smaller than the pool
      have hlt : used.length < P.length := by
        simp only [List.length_cons] at hlen
        omega
      -- hence some pool name is still available
      have hav : (P.filter (fun n => !(used.contains n))).isEmpty = false := by
        rw [Bool.eq_false_iff]
        intro hcontra
        rw [List.isEmpty_iff] at hcontra
        have hall : ∀ p ∈ P, p ∈ used := by
          intro p hp
          by_contra hnp
          have : p ∈ P.filter (fun n => !(used.contains n)) := by
            rw [List.mem_filter]
            refine ⟨hp, ?_⟩
            have : used.contains p = false := by
              rw [Bool.eq_false_iff]
              intro hc
              exact hnp ((contains_iff_memL).mp hc)
            rw [this]
            rfl
          rw [hcontra] at this
          exact absurd this (List.not_mem_nil p)
        have hsubP : P ⊆ used := fun p hp => hall p hp
        have := (List.subperm_of_subset hPnd hsubP).length_le
        omega
      have hfne : P.filter (fun n => !(used.contains n)) ≠ [] := by
        intro hcontra
        rw [hcontra] at hav
        exact absurd hav (by simp)
      -- the selected name is a fresh pool name
      have hselmem := pyChoice_mem k (P.filter (fun n => !(used.contains n))) hfne
      rw [List.mem_filter] at hselmem
      obtain ⟨hselP, hselused⟩ := hselmem
      have hselnotused : pyChoice k (P.filter (fun n => !(used.contains n))) ∉ used := by
        intro hc
        rw [← contains_iff_memL] at hc
        rw [hc] at hselused
        exact absurd hselused (by simp)
      -- step the trace
      have hstep := draw_step P used k hPempty
      rw [hav] at hstep
      simp only [Bool.false_eq_true, if_false] at hstep
      have hih := ih (pyChoice k (P.filter (fun n => !(used.contains n))) :: used)
        (by
          intro u hu
          rcases List.mem_cons.mp hu with hu | hu
          · subst hu; exact hselP
          · exact hsub u hu)
        (List.nodup_cons.mpr ⟨hselnotused, hund⟩)
        (by
          simp only [List.length_cons] at hlen ⊢
          omega)
      obtain ⟨ihlen, ihnd, ihmem, ihtr⟩ := hih
      unfold drawTrace
      rw [hstep]
      dsimp only
      refine ⟨?_, ?_, ?_, ?_⟩
      · simp only [List.length_cons, ihlen]
      · rw [List.nodup_cons]
        refine ⟨?_, ihnd⟩
        intro hc
        exact ((ihmem _ hc).2) (List.mem_cons_self _ _)
      · intro n hn
        rcases List.mem_cons.mp hn with hn | hn
        · subst hn; exact ⟨hselP, hselnotused⟩
        · have := ihmem n hn
          exact ⟨this.1, fun hc => this.2 (List.mem_cons_of_mem _ hc)⟩
      · rw [ihtr]
        simp only [List.reverse_cons, List.append_assoc, List.cons_append, List.nil_append]

/-- Unfolding equation for one successful draw step of the harness. -/
theorem drawTrace_cons_ok (db : List NameCategory) (c : Str) (k : Nat) (ks : List Nat)
    (tr : Tracker) (n : Str) (tr' : Tracker)
    (h : get_random_name db tr c k = .ok (n, tr')) :
    drawTrace db c (k :: ks) tr =
      (n :: (drawTrace db c ks tr').fst, (drawTrace db c ks tr').snd) := by
  simp only [drawTrace]
  rw [h]

/-- Unfolding equation for a failing draw step of the harness. -/
theorem drawTrace_cons_error (db : List NameCategory) (c : Str) (k : Nat) (ks : List Nat)
    (tr : Tracker) (e : PyErr)
    (h : get_random_name db tr c k = .error e) :
    drawTrace db c (k :: ks) tr = ([], tr) := by
  simp only [drawTrace]
  rw [h]

/-- Runs that complete (one output per requested draw) decompose over
append. -/
theorem drawTrace_append_of_complete (db : List NameCategory) (c : Str)
    (ks1 ks2 : List Nat) (tr : Tracker)
    (hc : (drawTrace db c ks1 tr).fst.length = ks1.length) :
    drawTrace db c (ks1 ++ ks2) tr =
      ((drawTrace db c ks1 tr).fst ++ (drawTrace db c ks2 (drawTrace db c ks1 tr).snd).fst,
       (drawTrace db c ks2 (drawTrace db c ks1 tr).snd).snd) := by
  induction ks1 generalizing tr with
  | nil => simp [drawTrace]
  | cons k ks1 ih =>
      rw [List.cons_append]
      cases hstep : get_random_name db tr c k with
      | ok ntr =>
          obtain ⟨n, tr'⟩ := ntr
          rw [drawTrace_cons_ok db c k ks1 tr n tr' hstep] at hc
          rw [drawTrace_cons_ok db c k (ks1 ++ ks2) tr n tr' hstep,
              drawTrace_cons_ok db c k ks1 tr n tr' hstep]
          simp only [List.length_cons] at hc
          have hinner : (drawTrace db c ks1 tr').fst.length = ks1.length :=
            Nat.succ_injective hc
          rw [ih tr' hinner]
          simp
      | error e =>
          rw [drawTrace_cons_error db c k ks1 tr e hstep] at hc
          simp at hc

/-- Claim C5, confirmed.  Drawing from the (always-used) fallback pool `P`
of size `K = P.length`: any run of at most `K` draws yields pairwise
distinct names (first conjunct); a run of `K + 1` draws yields distinct
names in its first `K` positions covering the whole pool, and its last draw
is a repeat of an already-issued name — the repeat happens only after the
pool is exhausted, via the used-set reset (second conjunct). -/
theorem C5_no_repeat_until_exhaustion (P : List Str) (hnd : P.Nodup) (hne : P ≠ []) :
    (∀ ks : List Nat, ks.length ≤ P.length →
      ((drawTrace [⟨fallbackMasc, P⟩] fallbackMasc ks
          (initTracker [⟨fallbackMasc, P⟩])).fst).Nodup) ∧
    (∀ (ks : List Nat) (k' : Nat), ks.length = P.length →
      (((drawTrace [⟨fallbackMasc, P⟩] fallbackMasc (ks ++ [k'])
          (initTracker [⟨fallbackMasc, P⟩])).fst).take P.length).Nodup ∧
      (∀ p ∈ P, p ∈ ((drawTrace [⟨fallbackMasc, P⟩] fallbackMasc (ks ++ [k'])
          (initTracker [⟨fallbackMasc, P⟩])).fst).take P.length) ∧
      (∃ n, ((drawTrace [⟨fallbackMasc, P⟩] fallbackMasc (ks ++ [k'])
          (initTracker [⟨fallbackMasc, P⟩])).fst).getLast? = some n ∧
        n ∈ ((drawTrace [⟨fallbackMasc, P⟩] fallbackMasc (ks ++ [k'])
          (initTracker [⟨fallbackMasc, P⟩])).fst).take P.length)) := by
  have htr0 : initTracker [⟨fallbackMasc, P⟩] = [(fallbackMasc, [])] := rfl
  constructor
  · intro ks hlen
    rw [htr0]
    exact (drawTrace_inv P hnd ks [] (by simp) List.nodup_nil (by simpa)).2.1
  · intro ks k' hlen
    rw [htr0]
    obtain ⟨hlen1, hnd1, hmem1, htr1⟩ :=
      drawTrace_inv P hnd ks [] (by simp) List.nodup_nil (by simp [hlen])
    have happ := drawTrace_append_of_complete [⟨fallbackMasc, P⟩] fallbackMasc ks [k']
      [(fallbackMasc, [])] hlen1
    -- every pool name was issued in the first K draws
    have hsubP : ∀ n ∈ (drawTrace [⟨fallbackMasc, P⟩] fallbackMasc ks
        [(fallbackMasc, [])]).fst, n ∈ P := fun n hn => (hmem1 n hn).1
    have hperm : ((drawTrace [⟨fallbackMasc, P⟩] fallbackMasc ks
        [(fallbackMasc, [])]).fst).Perm P := by
      refine (List.subperm_of_subset hnd1 (fun n hn => hsubP n hn)).perm_of_length_le ?_
      rw [hlen1, hlen]
    have hall : ∀ p ∈ P, p ∈ (drawTrace [⟨fallbackMasc, P⟩] fallbackMasc ks
        [(fallbackMasc, [])]).fst := fun p hp => hperm.mem_iff.mpr hp
    -- the (K+1)-th draw finds the pool exhausted and resets
    have hPempty : P.isEmpty = false := by
      cases P with
      | nil => exact absurd rfl hne
      | cons a as => rfl
    have hfilter : (P.filter (fun n =>
        !(((drawTrace [⟨fallbackMasc, P⟩] fallbackMasc ks
            [(fallbackMasc, [])]).fst.reverse ++ []).contains n))).isEmpty = true := by
      rw [List.isEmpty_iff]
      rw [List.eq_nil_iff_forall_not_mem]
      intro x hx
      rw [List.mem_filter] at hx
      have hxin : ((drawTrace [⟨fallbackMasc, P⟩] fallbackMasc ks
          [(fallbackMasc, [])]).fst.reverse ++ []).contains x = true := by
        rw [contains_iff_memL]
        rw [List.append_nil, List.mem_reverse]
        exact hall x hx.1
      rw [hxin] at hx
      exact absurd hx.2 (by simp)
    have hstep := draw_step P
      ((drawTrace [⟨fallbackMasc, P⟩] fallbackMasc ks
        [(fallbackMasc, [])]).fst.reverse ++ []) k' hPempty
    rw [hfilter] at hstep
    simp only [if_true] at hstep
    have hlast : drawTrace [⟨fallbackMasc, P⟩] fallbackMasc [k']
        [(fallbackMasc, (drawTrace [⟨fallbackMasc, P⟩] fallbackMasc ks
          [(fallbackMasc, [])]).fst.reverse ++ [])] =
        ([pyChoice k' P], [(fallbackMasc, [pyChoice k' P])]) := by
      rw [drawTrace_cons_ok _ _ _ _ _ _ _ hstep]
      rfl
    rw [htr1] at happ
    rw [hlast] at happ
    -- the length of the first K outputs equals the pool size
    have hPlen : P.length = (drawTrace [⟨fallbackMasc, P⟩] fallbackMasc ks
        [(fallbackMasc, [])]).fst.length := by rw [hlen1, hlen]
    have htake : ((drawTrace [⟨fallbackMasc, P⟩] fallbackMasc ks
          [(fallbackMasc, [])]).fst ++ [pyChoice k' P]).take P.length =
        (drawTrace [⟨fallbackMasc, P⟩] fallbackMasc ks [(fallbackMasc, [])]).fst := by
      rw [hPlen]
      exact List.take_left _ _
    rw [happ]
    dsimp only
    rw [htake]
    refine ⟨hnd1, hall, pyChoice k' P, ?_, ?_⟩
    · rw [List.getLast?_append_of_ne_nil _ (List.cons_ne_nil _ _)]
      rfl
    · exact hall _ (pyChoice_mem k' P hne)

/-- Witness for C5 at the concrete pool `["Ana", "Bia"]` and a concrete
draw sequence. -/
theorem C5_no_repeat_until_exhaustion_witness :
    ((drawTrace [⟨fallbackMasc, [str "Ana", str "Bia"]⟩] fallbackMasc [0, 0]
        (initTracker [⟨fallbackMasc, [str "Ana", str "Bia"]⟩])).fst).Nodup ∧
    (((drawTrace [⟨fallbackMasc, [str "Ana", str "Bia"]⟩] fallbackMasc ([0, 0] ++ [1])
        (initTracker [⟨fallbackMasc, [str "Ana", str "Bia"]⟩])).fst).take 2).Nodup :=
  ⟨(C5_no_repeat_until_exhaustion [str "Ana", str "Bia"] (by decide) (by decide)).1
      [0, 0] (by decide),
   ((C5_no_repeat_until_exhaustion [str "Ana", str "Bia"] (by decide) (by decide)).2
      [0, 0] 1 (by decide)).1⟩

/-! ## C10: totality of name drawing -/

/-- Claim C10, counterexample.  With a database that does not contain the
per-gender fallback titles at all (single category `"X"`), drawing from
category `"X"` raises nothing: the fallback branch resolves to the feminine
fallback title, no category matches it, and the function returns
`"Nome Desconhecido"` before ever touching the used-names tracker — no
`KeyError` is raised, contrary to the claim. -/
theorem C10_counterexample :
    get_random_name [⟨str "X", [str "n1"]⟩] (initTracker [⟨str "X", [str "n1"]⟩])
      (str "X") 0
      = .ok (str "Nome Desconhecido", initTracker [⟨str "X", [str "n1"]⟩]) := by
  decide

theorem lookupT_init_isSome {db : List NameCategory} {t : Str}
    (h : ∃ c ∈ db, c.titulo = t) : (lookupT (initTracker db) t).isSome = true := by
  induction db with
  | nil => obtain ⟨c, hc, -⟩ := h; exact absurd hc (List.not_mem_nil c)
  | cons d ds ih =>
      obtain ⟨c, hc, hct⟩ := h
      unfold initTracker lookupT at *
      rcases List.mem_cons.mp hc with hcd | hcds
      · subst hcd
        simp [List.find?, hct]
      · by_cases hd : (d.titulo == t) = true
        · simp [List.find?, hd]
        · have hrec := ih ⟨c, hcds, hct⟩
          simp only [List.map_cons, List.find?] at *
          rw [Bool.not_eq_true] at hd
          simp only [hd] at *
          exact hrec

/-- Claim C10, amended.  For every database, category string and draw,
`_get_random_name` always takes the fallback branch (the membership test
compares the category string with category dicts, so the resolved category
is always one of the two fixed fallback titles), and, when the tracker was
initialized from the same database, the tracker lookup can never raise
`KeyError`: if the resolved title is absent from the database the function
returns `"Nome Desconhecido"` first, and if it is present the tracker has
an entry for it.  (An `IndexError` remains reachable when the fallback
category exists with an empty name list.) -/
theorem C10_amended_total_fallback :
    (∀ (db : List NameCategory) (category : Str),
        resolveCategory db category = fallbackMasc ∨
        resolveCategory db category = fallbackFem) ∧
    (∀ (db : List NameCategory) (category : Str) (k : Nat),
        get_random_name db (initTracker db) category k ≠ .error .keyError) := by
  have hres : ∀ (db : List NameCategory) (category : Str),
      resolveCategory db category =
        (if pyIn (str "Masculinos") category then fallbackMasc else fallbackFem) := by
    intro db category
    unfold resolveCategory
    have hany : (db.any fun c => pyStrEqCategory category c) = false := by
      simp [pyStrEqCategory]
    rw [hany]
    simp
  constructor
  · intro db category
    rw [hres]
    by_cases h : pyIn (str "Masculinos") category = true
    · rw [h]; left; rfl
    · rw [Bool.not_eq_true] at h; rw [h]; right; rfl
  · intro db category k
    unfold get_random_name
    cases hfind : db.find? (fun c => c.titulo == resolveCategory db category) with
    | none =>
        simp only [hfind]
        intro hcontra
        exact Except.noConfusion hcontra
    | some cat =>
        have hmem := List.mem_of_find?_eq_some hfind
        have hprop := List.find?_some hfind
        have htit : cat.titulo = resolveCategory db category := by
          rwa [beq_iff_eq] at hprop
        have hsome : (lookupT (initTracker db) (resolveCategory db category)).isSome = true :=
          lookupT_init_isSome ⟨cat, hmem, htit⟩
        rw [Option.isSome_iff_exists] at hsome
        obtain ⟨used, hused⟩ := hsome
        simp only [hfind, hused]
        by_cases hempty : cat.nomes.isEmpty = true
        · simp only [hempty, if_true]
          intro hcontra
          injection hcontra with h
          exact PyErr.noConfusion h
        · rw [Bool.not_eq_true] at hempty
          simp only [hempty, Bool.false_eq_true, if_false]
          by_cases hav : (cat.nomes.filter (fun n => !(used.contains n))).isEmpty = true
          · simp only [hav, if_true]
            intro hcontra
            exact Except.noConfusion hcontra
          · rw [Bool.not_eq_true] at hav
            simp only [hav, Bool.false_eq_true, if_false]
            intro hcontra
            exact Except.noConfusion hcontra


/-!
## Engine soundness lemmas for claims C2 and C8
-/

theorem startsWithL_iff {p s : Str} : startsWithL s p = true ↔ p <+: s := by
  induction p generalizing s with
  | nil => simp [startsWithL, List.nil_prefix]
  | cons b bs ih =>
      cases s with
      | nil =>
          simp [startsWithL]
      | cons a as =>
          simp only [startsWithL, Bool.and_eq_true, beq_iff_eq]
          constructor
          · rintro ⟨rfl, h2⟩
            exact (List.prefix_cons_inj a).mpr (ih.mp h2)
          · intro h
            rcases h with ⟨t, ht⟩
            injection ht with h1 h2
            exact ⟨h1.symm, ih.mpr ⟨t, h2⟩⟩

theorem startsWithL_trans {a b c : Str} (h1 : startsWithL a b = true)
    (h2 : startsWithL b c = true) : startsWithL a c = true :=
  startsWithL_iff.mpr ((startsWithL_iff.mp h2).trans (startsWithL_iff.mp h1))

theorem pyIn_true_iff {n h : Str} :
    pyIn n h = true ↔ ∃ s₁, s₁ <:+ h ∧ startsWithL s₁ n = true := by
  induction h with
  | nil =>
      simp only [pyIn]
      constructor
      · intro hh
        exact ⟨[], List.suffix_refl [], hh⟩
      · rintro ⟨s₁, hs, hst⟩
        rw [List.suffix_nil] at hs
        subst hs
        exact hst
  | cons a as ih =>
      simp only [pyIn, Bool.or_eq_true, ih]
      constructor
      · rintro (hst | ⟨s₁, hs, hst⟩)
        · exact ⟨a :: as, List.suffix_refl _, hst⟩
        · exact ⟨s₁, hs.trans (List.suffix_cons a as), hst⟩
      · rintro ⟨s₁, ⟨t, ht⟩, hst⟩
        cases t with
        | nil =>
            left
            simp only [List.nil_append] at ht
            rw [← ht]
            exact hst
        | cons x xs =>
            right
            injection ht with h1 h2
            exact ⟨s₁, ⟨xs, h2⟩, hst⟩

theorem pyIn_false_no_occur {n h : Str} (hf : pyIn n h = false) :
    ∀ s₁, s₁ <:+ h → startsWithL s₁ n = false := by
  intro s₁ hs
  by_contra hcontra
  rw [Bool.not_eq_false] at hcontra
  rw [pyIn_true_iff.mpr ⟨s₁, hs, hcontra⟩] at hf
  exact Bool.noConfusion hf

theorem startsWith_mem {p s : Str} (h : startsWithL s p = true) :
    ∀ c ∈ p, c ∈ s :=
  fun c hc => (startsWithL_iff.mp h).subset hc

theorem pyIn_false_of_missing_char {w d : Str} {c : Char} (hcw : c ∈ w)
    (hcd : ∀ a ∈ d, a ≠ c) : pyIn w d = false := by
  by_contra hcontra
  rw [Bool.not_eq_false, pyIn_true_iff] at hcontra
  obtain ⟨s₁, hs, hst⟩ := hcontra
  exact hcd c (hs.subset (startsWith_mem hst c hcw)) rfl

theorem toNat_ofNat_valid (n : Nat) (h : n.isValidChar) : (Char.ofNat n).toNat = n := by
  unfold Char.ofNat
  rw [dif_pos h]
  unfold Char.ofNatAux Char.toNat
  rfl

theorem accent_find_fst_none {c : Char} (h : c.toNat < 192) :
    accentPairs.find? (fun p => p.fst == c) = none := by
  rw [List.find?_eq_none]
  intro p hp
  fin_cases hp <;>
    (simp only [beq_iff_eq]; rintro rfl; exact absurd h (by decide))

theorem accent_snd_ge {p : Char × Char} (hp : p ∈ accentPairs) : 224 ≤ p.snd.toNat := by
  fin_cases hp <;> decide

theorem accent_fst_ge {p : Char × Char} (hp : p ∈ accentPairs) : 192 ≤ p.fst.toNat := by
  fin_cases hp <;> decide

theorem char_le_iff {a b : Char} : a ≤ b ↔ a.toNat ≤ b.toNat := Iff.rfl

/-- If the lowercase image of `a` lies below letter range and accent range,
no folding happened: `a` equals its image. -/
theorem lowerCh_eq_low {a b : Char} (h : lowerCh a = b) (hb : b.toNat < 97) : a = b := by
  unfold lowerCh at h
  split at h
  · exfalso
    rename_i hrange
    have hv : (a.toNat + 32).isValidChar := by
      have : a.toNat ≤ 90 := hrange.2
      left
      omega
    have := toNat_ofNat_valid (a.toNat + 32) hv
    rw [h] at this
    have h65 : 65 ≤ a.toNat := hrange.1
    omega
  · rename_i hrange
    rw [show (match accentPairs.find? (fun p => p.fst == a) with
          | some pr => pr.2 | none => a)
        = ((accentPairs.find? (fun p => p.fst == a)).map Prod.snd).getD a from by
      cases accentPairs.find? (fun p => p.fst == a) <;> rfl] at h
    cases hfind : accentPairs.find? (fun p => p.fst == a) with
    | none =>
        rw [hfind] at h
        exact h
    | some p =>
        rw [hfind] at h
        exfalso
        have hmem := List.mem_of_find?_eq_some hfind
        have := accent_snd_ge hmem
        have h2 : p.2 = b := h
        rw [h2] at this
        omega

/-- Characters below the letter range are fixed by the lowercase map. -/
theorem lowerCh_fixed_low {c : Char} (h : c.toNat < 65) : lowerCh c = c := by
  unfold lowerCh
  rw [if_neg, accent_find_fst_none (by omega)]
  intro hcontra
  have : 65 ≤ c.toNat := hcontra.1
  omega

/-- Lowercase ASCII letters are fixed by the lowercase map. -/
theorem lowerCh_fixed_az {c : Char} (h1 : 91 ≤ c.toNat) (h2 : c.toNat < 192) :
    lowerCh c = c := by
  unfold lowerCh
  rw [if_neg, accent_find_fst_none h2]
  intro hcontra
  have : c.toNat ≤ 90 := hcontra.2
  omega

theorem lowerAlphaSpace_bounds {c : Char} (h : lowerAlphaSpace c = true) :
    (97 ≤ c.toNat ∧ c.toNat ≤ 122) ∨ c.toNat = 32 := by
  simp only [lowerAlphaSpace, Bool.or_eq_true, Bool.and_eq_true, beq_iff_eq,
    decide_eq_true_eq] at h
  rcases h with ⟨h1, h2⟩ | rfl
  · left
    exact ⟨h1, h2⟩
  · right
    rfl

theorem lowerAlphaSpace_fixed {c : Char} (h : lowerAlphaSpace c = true) :
    lowerCh c = c := by
  rcases lowerAlphaSpace_bounds h with ⟨h1, h2⟩ | h3
  · exact lowerCh_fixed_az (by omega) (by omega)
  · exact lowerCh_fixed_low (by omega)

theorem pyLower_id {s : Str} (h : ∀ c ∈ s, lowerCh c = c) : pyLower s = s := by
  induction s with
  | nil => rfl
  | cons a as ih =>
      simp only [pyLower, List.map_cons]
      rw [h a (List.mem_cons_self a as)]
      exact congrArg (a :: ·) (ih (fun c hc => h c (List.mem_cons_of_mem a hc)))

theorem startsWithL_nil (s : Str) : startsWithL s [] = true := by
  cases s <;> rfl

/-- A whole-string match of `startsWithL` extends over an appended tail. -/
theorem startsWithL_append_left {p u : Str} (h : startsWithL u p = true) (x : Str) :
    startsWithL (u ++ x) p = true :=
  startsWithL_iff.mpr ((startsWithL_iff.mp h).trans (List.prefix_append u x))

theorem startsWithL_false_head {a b : Char} {s bs : Str} (h : a ≠ b) :
    startsWithL (a :: s) (b :: bs) = false := by
  simp [startsWithL, h]

theorem pyIn_false_suffix {n h s' : Str} (hf : pyIn n h = false) (hs : s' <:+ h) :
    pyIn n s' = false := by
  by_contra hc
  rw [Bool.not_eq_false, pyIn_true_iff] at hc
  obtain ⟨s₁, hs₁, hst⟩ := hc
  rw [pyIn_true_iff.mpr ⟨s₁, hs₁.trans hs, hst⟩] at hf
  exact Bool.noConfusion hf

theorem pyIn_append_right {n a b : Str} (h : pyIn n b = true) :
    pyIn n (a ++ b) = true := by
  rw [pyIn_true_iff] at h ⊢
  obtain ⟨s₁, hs, hst⟩ := h
  exact ⟨s₁, hs.trans (List.suffix_append a b), hst⟩

/-!
### None-propagation through the matcher
-/

theorem repAux_none_of_k (ic : Bool) (cc : CharCls) :
    ∀ prev s (k : Option Char → Str → Option Str),
      (∀ p' s', s' <:+ s → k p' s' = none) → repAux ic cc prev s k = none := by
  intro prev s
  induction s generalizing prev with
  | nil =>
      intro k hk
      exact hk prev [] (List.suffix_refl _)
  | cons a as ih =>
      intro k hk
      simp only [repAux]
      by_cases hc : clsMatch ic cc a = true
      · simp only [hc, if_true]
        rw [ih (some a) k (fun p' s' hs => hk p' s' (hs.trans (List.suffix_cons a as)))]
        exact hk prev (a :: as) (List.suffix_refl _)
      · rw [Bool.not_eq_true] at hc
        simp only [hc, Bool.false_eq_true, if_false]
        exact hk prev (a :: as) (List.suffix_refl _)

theorem mAt_none_of_k (ic : Bool) (r : Re) :
    ∀ prev s (k : Option Char → Str → Option Str),
      (∀ p' s', s' <:+ s → k p' s' = none) → mAt ic r prev s k = none := by
  induction r with
  | eps =>
      intro prev s k hk
      exact hk prev s (List.suffix_refl _)
  | lit c =>
      intro prev s k hk
      cases s with
      | nil => rfl
      | cons a as =>
          simp only [mAt]
          by_cases h : (if ic then lowerCh a == lowerCh c else a == c) = true
          · simp only [h, if_true]
            exact hk (some a) as (List.suffix_cons a as)
          · rw [Bool.not_eq_true] at h
            simp only [h, Bool.false_eq_true, if_false]
  | cls cc =>
      intro prev s k hk
      cases s with
      | nil => rfl
      | cons a as =>
          simp only [mAt]
          by_cases h : clsMatch ic cc a = true
          · simp only [h, if_true]
            exact hk (some a) as (List.suffix_cons a as)
          · rw [Bool.not_eq_true] at h
            simp only [h, Bool.false_eq_true, if_false]
  | seq r1 r2 ih1 ih2 =>
      intro prev s k hk
      simp only [mAt]
      exact ih1 prev s _ (fun p' s' hs =>
        ih2 p' s' k (fun p'' s'' hs' => hk p'' s'' (hs'.trans hs)))
  | alt r1 r2 ih1 ih2 =>
      intro prev s k hk
      simp only [mAt]
      rw [ih1 prev s k hk]
      exact ih2 prev s k hk
  | opt r ih =>
      intro prev s k hk
      simp only [mAt]
      rw [ih prev s k hk]
      exact hk prev s (List.suffix_refl _)
  | rep1 cc =>
      intro prev s k hk
      cases s with
      | nil => rfl
      | cons a as =>
          simp only [mAt]
          split
          · exact repAux_none_of_k ic cc (some a) as k
              (fun p' s' hs => hk p' s' (hs.trans (List.suffix_cons a as)))
          · rfl
  | rep0 cc =>
      intro prev s k hk
      exact repAux_none_of_k ic cc prev s k hk
  | nla r ih =>
      intro prev s k hk
      simp only [mAt]
      cases h : mAt ic r prev s (fun _ _ => some []) with
      | some res => rfl
      | none => exact hk prev s (List.suffix_refl _)
  | wb =>
      intro prev s k hk
      simp only [mAt]
      split
      · exact hk prev s (List.suffix_refl _)
      · rfl
  | bos =>
      intro prev s k hk
      cases prev with
      | none => exact hk none s (List.suffix_refl _)
      | some c => rfl
  | bol =>
      intro prev s k hk
      cases prev with
      | none => exact hk none s (List.suffix_refl _)
      | some c =>
          simp only [mAt]
          split
          · exact hk (some c) s (List.suffix_refl _)
          · rfl

/-!
### Soundness of the `mustCls` certificate
-/

/-- Under `IGNORECASE` the matcher identifies characters with equal
lowercase images; a class `t` usable in a `mustCls` certificate must be
closed under that identification. -/
theorem mAt_none_of_mustCls {ic : Bool} {t : CharCls}
    (hst : ic = true → ∀ a c, clsMatch true t c = true → lowerCh a = lowerCh c →
      clsMatch true t a = true) :
    ∀ r, mustCls ic r t = true →
      ∀ prev s k, (∀ c ∈ s, clsMatch ic t c = false) → mAt ic r prev s k = none := by
  intro r
  induction r with
  | eps => intro hm; exact absurd hm (by simp [mustCls])
  | lit c =>
      intro hm prev s k hH
      replace hm : clsMatch ic t c = true := hm
      cases s with
      | nil => rfl
      | cons a as =>
          simp only [mAt]
          have hcond : (if ic then lowerCh a == lowerCh c else a == c) = false := by
            cases ic with
            | false =>
                simp only [Bool.false_eq_true, if_false, beq_eq_false_iff_ne]
                intro heq
                rw [heq] at hH
                exact absurd hm (by rw [hH c (List.mem_cons_self c as)]; exact Bool.noConfusion)
            | true =>
                simp only [if_true, beq_eq_false_iff_ne]
                intro heq
                have := hst rfl a c hm heq
                rw [hH a (List.mem_cons_self a as)] at this
                exact Bool.noConfusion this
          simp only [hcond, Bool.false_eq_true, if_false]
  | cls cc =>
      intro hm prev s k hH
      replace hm : (cc == t) = true := hm
      rw [beq_iff_eq] at hm
      subst hm
      cases s with
      | nil => rfl
      | cons a as =>
          simp only [mAt, hH a (List.mem_cons_self a as), Bool.false_eq_true, if_false]
  | seq r1 r2 ih1 ih2 =>
      intro hm prev s k hH
      replace hm : (mustCls ic r1 t || mustCls ic r2 t) = true := hm
      rw [Bool.or_eq_true] at hm
      simp only [mAt]
      rcases hm with hm1 | hm2
      · exact ih1 hm1 prev s _ hH
      · exact mAt_none_of_k ic r1 prev s _ (fun p' s' hs =>
          ih2 hm2 p' s' k (fun c hc => hH c (hs.subset hc)))
  | alt r1 r2 ih1 ih2 =>
      intro hm prev s k hH
      replace hm : (mustCls ic r1 t && mustCls ic r2 t) = true := hm
      rw [Bool.and_eq_true] at hm
      simp only [mAt]
      rw [ih1 hm.1 prev s k hH]
      exact ih2 hm.2 prev s k hH
  | opt r ih => intro hm; exact absurd hm (by simp [mustCls])
  | rep1 cc =>
      intro hm prev s k hH
      replace hm : (cc == t) = true := hm
      rw [beq_iff_eq] at hm
      subst hm
      cases s with
      | nil => rfl
      | cons a as =>
          simp only [mAt, hH a (List.mem_cons_self a as), Bool.false_eq_true, if_false]
  | rep0 cc => intro hm; exact absurd hm (by simp [mustCls])
  | nla r ih => intro hm; exact absurd hm (by simp [mustCls])
  | wb => intro hm; exact absurd hm (by simp [mustCls])
  | bos => intro hm; exact absurd hm (by simp [mustCls])
  | bol => intro hm; exact absurd hm (by simp [mustCls])

/-!
### Soundness of the `mustLit` certificate
-/

/-- A successful match at the start of `s` matches the whole leading
literal chain of the pattern, up to lowercasing. -/
theorem mAt_some_lead (ic : Bool) :
    ∀ (p : Re) prev s k r, mAt ic p prev s k = some r →
      startsWithL (pyLower s) (pyLower (leadLits p)) = true := by
  intro p
  induction p with
  | eps => intro prev s k r _; exact startsWithL_nil _
  | lit c =>
      intro prev s k r h
      cases s with
      | nil => exact Option.noConfusion h
      | cons a as =>
          simp only [mAt] at h
          by_cases hc : (if ic then lowerCh a == lowerCh c else a == c) = true
          · have heq : lowerCh a = lowerCh c := by
              cases ic with
              | false =>
                  simp only [Bool.false_eq_true, if_false, beq_iff_eq] at hc
                  rw [hc]
              | true =>
                  simp only [if_true, beq_iff_eq] at hc
                  exact hc
            simp [pyLower, leadLits, startsWithL, heq]
          · rw [Bool.not_eq_true] at hc
            rw [hc] at h
            simp only [Bool.false_eq_true, if_false] at h
            exact Option.noConfusion h
  | cls cc => intro prev s k r _; exact startsWithL_nil _
  | seq r1 r2 ih1 ih2 =>
      intro prev s k r h
      cases r1 with
      | lit c =>
          simp only [mAt] at h
          cases s with
          | nil => exact Option.noConfusion h
          | cons a as =>
              simp only [mAt] at h
              by_cases hc : (if ic then lowerCh a == lowerCh c else a == c) = true
              · have heq : lowerCh a = lowerCh c := by
                  cases ic with
                  | false =>
                      simp only [Bool.false_eq_true, if_false, beq_iff_eq] at hc
                      rw [hc]
                  | true =>
                      simp only [if_true, beq_iff_eq] at hc
                      exact hc
                rw [hc] at h
                simp only [if_true] at h
                have htail := ih2 (some a) as k r h
                simp only [leadLits, pyLower, List.map_cons, startsWithL, heq,
                  beq_self_eq_true, Bool.true_and]
                exact htail
              · rw [Bool.not_eq_true] at hc
                rw [hc] at h
                simp only [Bool.false_eq_true, if_false] at h
                exact Option.noConfusion h
      | eps => exact startsWithL_nil _
      | cls cc => exact startsWithL_nil _
      | seq a b => exact startsWithL_nil _
      | alt a b => exact startsWithL_nil _
      | opt a => exact startsWithL_nil _
      | rep1 cc => exact startsWithL_nil _
      | rep0 cc => exact startsWithL_nil _
      | nla a => exact startsWithL_nil _
      | wb => exact startsWithL_nil _
      | bos => exact startsWithL_nil _
      | bol => exact startsWithL_nil _
  | alt r1 r2 ih1 ih2 => intro prev s k r _; exact startsWithL_nil _
  | opt r ih => intro prev s k r _; exact startsWithL_nil _
  | rep1 cc => intro prev s k r _; exact startsWithL_nil _
  | rep0 cc => intro prev s k r _; exact startsWithL_nil _
  | nla r ih => intro prev s k r _; exact startsWithL_nil _
  | wb => intro prev s k r _; exact startsWithL_nil _
  | bos => intro prev s k r _; exact startsWithL_nil _
  | bol => intro prev s k r _; exact startsWithL_nil _

/-- If the leading literal chain of `p` carries `w` but `s` has no
case-insensitive occurrence of `w`, the match fails. -/
theorem mAt_none_of_lead {w : Str} (ic : Bool) (p : Re) (prev : Option Char) (s : Str)
    (k : Option Char → Str → Option Str)
    (hlead : startsWithL (pyLower (leadLits p)) (pyLower w) = true)
    (hno : pyIn (pyLower w) (pyLower s) = false) : mAt ic p prev s k = none := by
  cases hres : mAt ic p prev s k with
  | none => rfl
  | some r =>
      exfalso
      have h1 := mAt_some_lead ic p prev s k r hres
      have h2 := startsWithL_trans h1 hlead
      rw [pyIn_true_iff.mpr ⟨pyLower s, List.suffix_refl _, h2⟩] at hno
      exact Bool.noConfusion hno

theorem mAt_none_of_mustLit {w : Str} (ic : Bool) :
    ∀ p, mustLit p w = true →
      ∀ prev s k, pyIn (pyLower w) (pyLower s) = false → mAt ic p prev s k = none := by
  intro p
  induction p with
  | seq r1 r2 ih1 ih2 =>
      intro hm prev s k hno
      replace hm : (startsWithL (pyLower (leadLits (Re.seq r1 r2))) (pyLower w) ||
        mustLit r1 w || mustLit r2 w) = true := hm
      rw [Bool.or_eq_true, Bool.or_eq_true] at hm
      rcases hm with (hlead | hm1) | hm2
      · exact mAt_none_of_lead ic _ prev s k hlead hno
      · simp only [mAt]
        exact ih1 hm1 prev s _ hno
      · simp only [mAt]
        exact mAt_none_of_k ic r1 prev s _ (fun p' s' hs =>
          ih2 hm2 p' s' k (pyIn_false_suffix hno (hs.map lowerCh)))
  | alt r1 r2 ih1 ih2 =>
      intro hm prev s k hno
      replace hm : (mustLit r1 w && mustLit r2 w) = true := hm
      rw [Bool.and_eq_true] at hm
      simp only [mAt]
      rw [ih1 hm.1 prev s k hno]
      exact ih2 hm.2 prev s k hno
  | eps => intro hm prev s k hno; exact mAt_none_of_lead ic _ prev s k hm hno
  | lit c => intro hm prev s k hno; exact mAt_none_of_lead ic _ prev s k hm hno
  | cls cc => intro hm prev s k hno; exact mAt_none_of_lead ic _ prev s k hm hno
  | opt r ih => intro hm prev s k hno; exact mAt_none_of_lead ic _ prev s k hm hno
  | rep1 cc => intro hm prev s k hno; exact mAt_none_of_lead ic _ prev s k hm hno
  | rep0 cc => intro hm prev s k hno; exact mAt_none_of_lead ic _ prev s k hm hno
  | nla r ih => intro hm prev s k hno; exact mAt_none_of_lead ic _ prev s k hm hno
  | wb => intro hm prev s k hno; exact mAt_none_of_lead ic _ prev s k hm hno
  | bos => intro hm prev s k hno; exact mAt_none_of_lead ic _ prev s k hm hno
  | bol => intro hm prev s k hno; exact mAt_none_of_lead ic _ prev s k hm hno

/-!
### From a failing matcher to failing `re.search` / identity `re.sub` /
empty `re.findall`
-/

theorem searchAux_none (ic : Bool) (r : Re) :
    ∀ s prev pos, (∀ prev' s' k, s' <:+ s → mAt ic r prev' s' k = none) →
      searchAux ic r prev s pos = none := by
  intro s
  induction s with
  | nil =>
      intro prev pos H
      simp only [searchAux]
      rw [H prev [] _ (List.suffix_refl _)]
  | cons a as ih =>
      intro prev pos H
      simp only [searchAux]
      rw [H prev (a :: as) _ (List.suffix_refl _)]
      exact ih (some a) (pos + 1) (fun p' s' k hs => H p' s' k (hs.trans (List.suffix_cons a as)))

theorem reSearch_none (ic : Bool) (r : Re) (s : Str)
    (H : ∀ prev' s' k, s' <:+ s → mAt ic r prev' s' k = none) :
    reSearch ic r s = none :=
  searchAux_none ic r s none 0 H

theorem subAux_id (ic : Bool) (r : Re) (repl : Str) :
    ∀ s prev fuel, (∀ prev' s' k, s' <:+ s → mAt ic r prev' s' k = none) →
      subAux ic r repl prev s fuel = s := by
  intro s
  induction s with
  | nil =>
      intro prev fuel H
      cases fuel with
      | zero => rfl
      | succ n =>
          simp only [subAux]
          rw [H prev [] _ (List.suffix_refl _)]
  | cons a as ih =>
      intro prev fuel H
      cases fuel with
      | zero => rfl
      | succ n =>
          simp only [subAux]
          rw [H prev (a :: as) _ (List.suffix_refl _)]
          exact congrArg (a :: ·)
            (ih (some a) n (fun p' s' k hs => H p' s' k (hs.trans (List.suffix_cons a as))))

theorem reSub_id (ic : Bool) (r : Re) (repl : Str) (s : Str)
    (H : ∀ prev' s' k, s' <:+ s → mAt ic r prev' s' k = none) :
    reSub ic r repl s = s :=
  subAux_id ic r repl s none (s.length + 1) H

theorem findAllAux_nil (ic : Bool) (r : Re) :
    ∀ s prev fuel, (∀ prev' s' k, s' <:+ s → mAt ic r prev' s' k = none) →
      findAllAux ic r prev s fuel = [] := by
  intro s
  induction s with
  | nil =>
      intro prev fuel H
      cases fuel with
      | zero => rfl
      | succ n =>
          simp only [findAllAux]
          rw [H prev [] _ (List.suffix_refl _)]
  | cons a as ih =>
      intro prev fuel H
      cases fuel with
      | zero => rfl
      | succ n =>
          simp only [findAllAux]
          rw [H prev (a :: as) _ (List.suffix_refl _)]
          exact ih (some a) n (fun p' s' k hs => H p' s' k (hs.trans (List.suffix_cons a as)))

theorem reFindAll_nil (ic : Bool) (r : Re) (s : Str)
    (H : ∀ prev' s' k, s' <:+ s → mAt ic r prev' s' k = none) :
    reFindAll ic r s = [] :=
  findAllAux_nil ic r s none (s.length + 1) H

/-- Certificate wrappers: the `mustCls` hypotheses give failure on every
suffix, hence the scan-based operations degenerate. -/
theorem mAt_all_none_of_mustCls {ic : Bool} {t : CharCls} {r : Re} {s : Str}
    (hst : ic = true → ∀ a c, clsMatch true t c = true → lowerCh a = lowerCh c →
      clsMatch true t a = true)
    (hm : mustCls ic r t = true) (hH : ∀ c ∈ s, clsMatch ic t c = false) :
    ∀ prev' s' k, s' <:+ s → mAt ic r prev' s' k = none :=
  fun prev' s' k hs =>
    mAt_none_of_mustCls hst r hm prev' s' k (fun c hc => hH c (hs.subset hc))

theorem mAt_all_none_of_mustLit {w : Str} {ic : Bool} {r : Re} {s : Str}
    (hm : mustLit r w = true) (hno : pyIn (pyLower w) (pyLower s) = false) :
    ∀ prev' s' k, s' <:+ s → mAt ic r prev' s' k = none :=
  fun prev' s' k hs =>
    mAt_none_of_mustLit ic r hm prev' s' k (pyIn_false_suffix hno (hs.map lowerCh))

/-- Folding a pointwise-fixing step list over a fixed point is the
identity. -/
theorem foldl_fixed {α β : Type} (g : β → α → α) (ps : List β) (d : α)
    (h : ∀ p ∈ ps, g p d = d) : ps.foldl (fun c p => g p c) d = d := by
  induction ps with
  | nil => rfl
  | cons p ps ih =>
      rw [List.foldl_cons, h p (List.mem_cons_self p ps)]
      exact ih (fun q hq => h q (List.mem_cons_of_mem p hq))

/-!
### Lowercase-stability of the classes used in certificates
-/

theorem clsStable_digit : ∀ a c, clsMatch true CharCls.digit c = true →
    lowerCh a = lowerCh c → clsMatch true CharCls.digit a = true := by
  intro a c hc hl
  simp only [clsMatch, Bool.and_eq_true, decide_eq_true_eq, char_le_iff] at hc ⊢
  have h0 : ('0' : Char).toNat = 48 := rfl
  have h9 : ('9' : Char).toNat = 57 := rfl
  rw [h0, h9] at hc ⊢
  have hcfix : lowerCh c = c := lowerCh_fixed_low (by omega)
  rw [hcfix] at hl
  have := lowerCh_eq_low hl (by omega)
  rw [this]
  exact hc

theorem clsStable_chs (l : List Char) : ∀ a c, clsMatch true (CharCls.chs l) c = true →
    lowerCh a = lowerCh c → clsMatch true (CharCls.chs l) a = true := by
  intro a c hc hl
  simp only [clsMatch, if_true] at hc ⊢
  rw [hl]
  exact hc

/-!
### Characters of plain clinical text avoid the scrubbed classes
-/

theorem findSome?_none {α β : Type} (f : α → Option β) :
    ∀ l : List α, (∀ x ∈ l, f x = none) → l.findSome? f = none := by
  intro l
  induction l with
  | nil => intro; rfl
  | cons a as ih =>
      intro h
      simp only [List.findSome?]
      rw [h a (List.mem_cons_self a as)]
      exact ih (fun x hx => h x (List.mem_cons_of_mem a hx))

theorem las_not_digit {d : Str} (hch : ∀ c ∈ d, lowerAlphaSpace c = true) :
    ∀ c ∈ d, clsMatch true CharCls.digit c = false := by
  intro c hc
  by_contra hcontra
  rw [Bool.not_eq_false] at hcontra
  simp only [clsMatch, Bool.and_eq_true, decide_eq_true_eq, char_le_iff] at hcontra
  have h0 : ('0' : Char).toNat = 48 := rfl
  have h9 : ('9' : Char).toNat = 57 := rfl
  rw [h0, h9] at hcontra
  rcases lowerAlphaSpace_bounds (hch c hc) with ⟨h1, h2⟩ | h3 <;> omega

theorem contains_iff_memC {l : List Char} {a : Char} : l.contains a = true ↔ a ∈ l := by
  simp

theorem contains_false_of_not_mem {l : List Char} {a : Char} (h : a ∉ l) :
    l.contains a = false := by
  cases hb : l.contains a with
  | false => rfl
  | true => exact absurd (contains_iff_memC.mp hb) h

theorem las_not_upper {d : Str} (hch : ∀ c ∈ d, lowerAlphaSpace c = true) :
    ∀ c ∈ d, clsMatch false CharCls.upper c = false := by
  intro c hc
  by_contra hcontra
  rw [Bool.not_eq_false] at hcontra
  simp only [clsMatch, Bool.false_eq_true, if_false, Bool.and_eq_true,
    decide_eq_true_eq, char_le_iff] at hcontra
  have hA : ('A' : Char).toNat = 65 := rfl
  have hZ : ('Z' : Char).toNat = 90 := rfl
  rw [hA, hZ] at hcontra
  rcases lowerAlphaSpace_bounds (hch c hc) with ⟨h1, h2⟩ | h3 <;> omega

/-- Plain clinical text contains no character of a concrete set whose
members are fixed by lowercasing and lie outside
lowercase-letters-and-space. -/
theorem las_not_chs {d : Str} (hch : ∀ c ∈ d, lowerAlphaSpace c = true)
    (ic : Bool) (l : List Char)
    (hl : ∀ x ∈ l, lowerCh x = x ∧ ((x.toNat < 97 ∧ x.toNat ≠ 32) ∨ 122 < x.toNat)) :
    ∀ c ∈ d, clsMatch ic (CharCls.chs l) c = false := by
  intro c hc
  have hfix : lowerCh c = c := lowerAlphaSpace_fixed (hch c hc)
  have hmem : c ∉ l := by
    intro hm
    rcases (hl c hm).2 with ⟨h1, h2⟩ | h3 <;>
      rcases lowerAlphaSpace_bounds (hch c hc) with ⟨b1, b2⟩ | b3 <;> omega
  cases ic with
  | false =>
      simp only [clsMatch, Bool.false_eq_true, if_false]
      exact contains_false_of_not_mem hmem
  | true =>
      simp only [clsMatch, if_true, hfix]
      refine contains_false_of_not_mem ?_
      intro hm
      obtain ⟨x, hx, hxe⟩ := List.mem_map.mp hm
      rw [(hl x hx).1] at hxe
      exact hmem (hxe ▸ hx)

theorem ne_of_las {d : Str} (hch : ∀ c ∈ d, lowerAlphaSpace c = true)
    {x : Char} (hx : 122 < x.toNat) : ∀ a ∈ d, a ≠ x := by
  intro a ha heq
  subst heq
  rcases lowerAlphaSpace_bounds (hch a ha) with ⟨h1, h2⟩ | h3 <;> omega

theorem pyIn_lower_intro {w d : Str} (hw : pyLower w = w) (hlow : pyLower d = d)
    (h : pyIn w d = false) : pyIn (pyLower w) (pyLower d) = false := by
  rw [hw, hlow]
  exact h

/-!
### Each scrubbing stage fixes plain clinical text
-/

theorem cdStep2_id {d : Str} (hch : ∀ c ∈ d, lowerAlphaSpace c = true) :
    cdStep2 d = d := by
  have hdig := las_not_digit hch
  have hnone : firstMatchLen true filiationStartPatterns d = none := by
    unfold firstMatchLen
    refine findSome?_none _ _ ?_
    intro p hp
    fin_cases hp <;>
      (rw [reSearch_none true _ d
        (mAt_all_none_of_mustCls (fun _ => clsStable_digit) (by decide) hdig)]; rfl)
  unfold cdStep2
  rw [hnone]

theorem cdStep3a_id {d : Str} (hpac : pyIn (str "paciente") d = false)
    (hlow : pyLower d = d) : cdStep3a d = d := by
  have hno : pyIn (pyLower (str "paciente")) (pyLower d) = false :=
    pyIn_lower_intro (by decide) hlow hpac
  unfold cdStep3a
  refine foldl_fixed _ _ _ ?_
  intro p hp
  fin_cases hp <;>
    exact reSub_id true _ _ d (mAt_all_none_of_mustLit (by decide) hno)

theorem cdStep3b_id {d : Str} (hch : ∀ c ∈ d, lowerAlphaSpace c = true) :
    cdStep3b d = d := by
  have hcomma := las_not_chs hch true [','] (by decide)
  unfold cdStep3b
  refine foldl_fixed _ _ _ ?_
  intro p hp
  fin_cases hp <;>
    exact reSub_id true _ _ d
      (mAt_all_none_of_mustCls (fun _ => clsStable_chs [',']) (by decide) hcomma)

theorem cdStep3c_id {d : Str} (hch : ∀ c ∈ d, lowerAlphaSpace c = true) :
    cdStep3c d = d := by
  have hdig := las_not_digit hch
  unfold cdStep3c
  refine foldl_fixed _ _ _ ?_
  intro p hp
  fin_cases hp <;>
    exact reSub_id true _ _ d
      (mAt_all_none_of_mustCls (fun _ => clsStable_digit) (by decide) hdig)

theorem cdStep3d_id {d : Str} (hch : ∀ c ∈ d, lowerAlphaSpace c = true) :
    cdStep3d d = d := by
  have hup := las_not_upper hch
  unfold cdStep3d
  refine foldl_fixed _ _ _ ?_
  intro p hp
  fin_cases hp <;>
    (rw [reFindAll_nil false _ d
      (mAt_all_none_of_mustCls (fun h => Bool.noConfusion h) (by decide) hup)]; rfl)

theorem cdStep4_id {d : Str} (hch : ∀ c ∈ d, lowerAlphaSpace c = true) :
    cdStep4 d = d := by
  have hdig := las_not_digit hch
  unfold cdStep4
  refine foldl_fixed _ _ _ ?_
  intro pi hpi
  fin_cases hpi <;>
    (simp only [ageGenderFindAll];
     rw [reFindAll_nil true _ d
       (mAt_all_none_of_mustCls (fun _ => clsStable_digit) (by decide) hdig)];
     rfl)

theorem cdStep5_id {d : Str} (hch : ∀ c ∈ d, lowerAlphaSpace c = true)
    (hlow : pyLower d = d)
    (hbk : ∀ kw ∈ bannedKeywords, pyIn kw d = false) : cdStep5 d = d := by
  have kill : ∀ (p : Re) (w : Str), mustLit p w = true →
      pyIn (pyLower w) (pyLower d) = false →
      (reFindAll true p d).foldl processOccupationMatch d = d := by
    intro p w hm hno
    rw [reFindAll_nil true p d (mAt_all_none_of_mustLit hm hno)]
    rfl
  have kw : ∀ w : Str, w ∈ bannedKeywords → pyLower w = w →
      pyIn (pyLower w) (pyLower d) = false := fun w hw hfix =>
    pyIn_lower_intro hfix hlow (hbk w hw)
  have acc : ∀ (w : Str) (x : Char), x ∈ w → 122 < x.toNat → pyLower w = w →
      pyIn (pyLower w) (pyLower d) = false := fun w x hxw hx hfix =>
    pyIn_lower_intro hfix hlow (pyIn_false_of_missing_char hxw (ne_of_las hch hx))
  unfold cdStep5
  refine foldl_fixed _ _ _ ?_
  intro p hp
  fin_cases hp
  · exact kill _ (str "motorista") (by decide) (kw _ (by decide) (by decide))
  · exact kill _ (str "motorista") (by decide) (kw _ (by decide) (by decide))
  · exact kill _ (str "cozinheir") (by decide) (kw _ (by decide) (by decide))
  · exact kill _ (str "professor") (by decide) (kw _ (by decide) (by decide))
  · exact kill _ (str "professor") (by decide) (kw _ (by decide) (by decide))
  · exact kill _ (str "médic") (by decide) (acc _ 'é' (by decide) (by decide) (by decide))
  · exact kill _ (str "enfermeir") (by decide) (kw _ (by decide) (by decide))
  · exact kill _ (str "engenheir") (by decide) (kw _ (by decide) (by decide))
  · exact kill _ (str "advogad") (by decide) (kw _ (by decide) (by decide))
  · exact kill _ (str "comerciante") (by decide) (kw _ (by decide) (by decide))
  · exact kill _ (str "empresári") (by decide) (acc _ 'á' (by decide) (by decide) (by decide))
  · exact kill _ (str "funcionári") (by decide) (acc _ 'á' (by decide) (by decide) (by decide))
  · exact kill _ (str "estudante") (by decide) (kw _ (by decide) (by decide))
  · exact kill _ (str "doméstic") (by decide) (acc _ 'é' (by decide) (by decide) (by decide))
  · exact kill _ (str "aposentad") (by decide) (kw _ (by decide) (by decide))
  · exact kill _ (str "trabalhador") (by decide) (kw _ (by decide) (by decide))
  · exact kill _ (str "analista") (by decide) (kw _ (by decide) (by decide))
  · exact kill _ (str "pedreiro") (by decide) (kw _ (by decide) (by decide))

theorem cdStep6_id {d : Str} (hch : ∀ c ∈ d, lowerAlphaSpace c = true)
    (hlow : pyLower d = d)
    (hbk : ∀ kw ∈ bannedKeywords, pyIn kw d = false) : cdStep6 d = d := by
  have kw : ∀ w : Str, w ∈ bannedKeywords → pyLower w = w →
      pyIn (pyLower w) (pyLower d) = false := fun w hw hfix =>
    pyIn_lower_intro hfix hlow (hbk w hw)
  have acc : ∀ (w : Str) (x : Char), x ∈ w → 122 < x.toNat → pyLower w = w →
      pyIn (pyLower w) (pyLower d) = false := fun w x hxw hx hfix =>
    pyIn_lower_intro hfix hlow (pyIn_false_of_missing_char hxw (ne_of_las hch hx))
  unfold cdStep6
  refine foldl_fixed _ _ _ ?_
  intro p hp
  fin_cases hp
  · exact reSub_id true _ _ d
      (mAt_all_none_of_mustLit (w := str "casad") (by decide) (kw _ (by decide) (by decide)))
  · exact reSub_id true _ _ d
      (mAt_all_none_of_mustLit (w := str "solteir") (by decide) (kw _ (by decide) (by decide)))
  · exact reSub_id true _ _ d
      (mAt_all_none_of_mustLit (w := str "divorciad") (by decide) (kw _ (by decide) (by decide)))
  · exact reSub_id true _ _ d
      (mAt_all_none_of_mustLit (w := str "viúv") (by decide)
        (acc _ 'ú' (by decide) (by decide) (by decide)))
  · exact reSub_id true _ _ d
      (mAt_all_none_of_mustLit (w := str "separad") (by decide) (kw _ (by decide) (by decide)))

theorem cdStep7_id {d : Str} (hch : ∀ c ∈ d, lowerAlphaSpace c = true)
    (hlow : pyLower d = d)
    (hbk : ∀ kw ∈ bannedKeywords, pyIn kw d = false) : cdStep7 d = d := by
  have kw : ∀ w : Str, w ∈ bannedKeywords → pyLower w = w →
      pyIn (pyLower w) (pyLower d) = false := fun w hw hfix =>
    pyIn_lower_intro hfix hlow (hbk w hw)
  have acc : ∀ (w : Str) (x : Char), x ∈ w → 122 < x.toNat → pyLower w = w →
      pyIn (pyLower w) (pyLower d) = false := fun w x hxw hx hfix =>
    pyIn_lower_intro hfix hlow (pyIn_false_of_missing_char hxw (ne_of_las hch hx))
  unfold cdStep7
  refine foldl_fixed _ _ _ ?_
  intro p hp
  fin_cases hp
  · exact reSub_id true _ _ d
      (mAt_all_none_of_mustLit (w := str "área") (by decide)
        (acc _ 'á' (by decide) (by decide) (by decide)))
  · exact reSub_id true _ _ d
      (mAt_all_none_of_mustLit (w := str "área") (by decide)
        (acc _ 'á' (by decide) (by decide) (by decide)))
  · exact reSub_id true _ _ d
      (mAt_all_none_of_mustLit (w := str "cidade") (by decide) (kw _ (by decide) (by decide)))
  · exact reSub_id true _ _ d
      (mAt_all_none_of_mustLit (w := str "capital") (by decide) (kw _ (by decide) (by decide)))
  · exact reSub_id true _ _ d
      (mAt_all_none_of_mustLit (w := str "zona") (by decide) (kw _ (by decide) (by decide)))
  · exact reSub_id true _ _ d
      (mAt_all_none_of_mustLit (w := str "procedência") (by decide)
        (acc _ 'ê' (by decide) (by decide) (by decide)))

theorem cdStep8_id {d : Str} (hlow : pyLower d = d)
    (hbk : ∀ kw ∈ bannedKeywords, pyIn kw d = false) : cdStep8 d = d := by
  have kw : ∀ w : Str, w ∈ bannedKeywords → pyLower w = w →
      pyIn (pyLower w) (pyLower d) = false := fun w hw hfix =>
    pyIn_lower_intro hfix hlow (hbk w hw)
  unfold cdStep8
  refine foldl_fixed _ _ _ ?_
  intro pr hpr
  fin_cases hpr
  · exact reSub_id true _ _ d
      (mAt_all_none_of_mustLit (w := str "filho") (by decide) (kw _ (by decide) (by decide)))
  · exact reSub_id true _ _ d
      (mAt_all_none_of_mustLit (w := str "filha") (by decide) (kw _ (by decide) (by decide)))
  · exact reSub_id true _ _ d
      (mAt_all_none_of_mustLit (w := str "filho") (by decide) (kw _ (by decide) (by decide)))
  · exact reSub_id true _ _ d
      (mAt_all_none_of_mustLit (w := str "filha") (by decide) (kw _ (by decide) (by decide)))
  · exact reSub_id true _ _ d
      (mAt_all_none_of_mustLit (w := str "filho") (by decide) (kw _ (by decide) (by decide)))
  · exact reSub_id true _ _ d
      (mAt_all_none_of_mustLit (w := str "filha") (by decide) (kw _ (by decide) (by decide)))

/-!
### The final normalization (step 9) fixes plain clinical text
-/

theorem isWs_toNat {c : Char} (h : isWs c = true) : c.toNat ≤ 32 := by
  simp only [isWs, Bool.or_eq_true, beq_iff_eq] at h
  rcases h with (((((rfl | rfl) | rfl) | rfl) | rfl) | rfl) <;> decide

theorem las_isWs_false {c : Char} (h : lowerAlphaSpace c = true) (hne : c ≠ ' ') :
    isWs c = false := by
  simp only [lowerAlphaSpace, Bool.or_eq_true, Bool.and_eq_true, beq_iff_eq,
    decide_eq_true_eq] at h
  rcases h with ⟨h1, h2⟩ | rfl
  · cases hb : isWs c with
    | false => rfl
    | true =>
        exfalso
        have := isWs_toNat hb
        rw [char_le_iff] at h1
        rw [show ('a' : Char).toNat = 97 from rfl] at h1
        omega
  · exact absurd rfl hne

theorem noDoubleSpace_tail {a : Char} {as : Str} (h : noDoubleSpace (a :: as) = true) :
    noDoubleSpace as = true := by
  cases as with
  | nil => rfl
  | cons b bs =>
      simp only [noDoubleSpace, Bool.and_eq_true] at h
      exact h.2

theorem noDoubleSpace_head {b : Char} {bs : Str}
    (h : noDoubleSpace (' ' :: b :: bs) = true) : b ≠ ' ' := by
  simp only [noDoubleSpace, Bool.and_eq_true, beq_self_eq_true, Bool.true_and,
    Bool.not_eq_eq_eq_not, Bool.not_true, beq_eq_false_iff_ne] at h
  exact h.1

/-- The whitespace-collapsing substitution fixes strings whose only
whitespace is single spaces. -/
theorem wsCollapse_subAux {s : Str} : ∀ (prev : Option Char) (fuel : Nat),
    s.length ≤ fuel → (∀ c ∈ s, lowerAlphaSpace c = true) →
    noDoubleSpace s = true →
    subAux false (Re.rep1 CharCls.space) (str " ") prev s fuel = s := by
  induction s with
  | nil =>
      intro prev fuel _ _ _
      cases fuel with
      | zero => rfl
      | succ n => rfl
  | cons a as ih =>
      intro prev fuel hfuel hch hnd
      cases fuel with
      | zero => exact absurd hfuel (by simp)
      | succ n =>
          by_cases ha : a = ' '
          · subst ha
            cases as with
            | nil =>
                simp only [subAux]
                rw [show mAt false (Re.rep1 CharCls.space) prev [' ']
                      (fun _ rest => some rest) = some [] from rfl]
                dsimp only
                rw [show (([' '] : Str).length - ([] : Str).length) = 1 from rfl]
                simp only [show ((1 : Nat) == 0) = false from rfl, Bool.false_eq_true,
                  if_false]
                rw [show (List.take 1 [' ']).getLast? = some ' ' from rfl]
                rw [ih (some ' ') n (by simp) (by intro c hc; exact absurd hc (List.not_mem_nil c))
                  rfl]
                rfl
            | cons b bs =>
                have hb : b ≠ ' ' := noDoubleSpace_head hnd
                have hbws : isWs b = false :=
                  las_isWs_false (hch b (List.mem_cons_of_mem _ (List.mem_cons_self b bs))) hb
                have hm : mAt false (Re.rep1 CharCls.space) prev (' ' :: b :: bs)
                    (fun _ rest => some rest) = some (b :: bs) := by
                  show repAux false CharCls.space (some ' ') (b :: bs)
                    (fun _ rest => some rest) = some (b :: bs)
                  simp only [repAux]
                  rw [show clsMatch false CharCls.space b = isWs b from rfl, hbws]
                  simp
                simp only [subAux]
                rw [hm]
                dsimp only
                have hlen : (' ' :: b :: bs : Str).length - (b :: bs : Str).length = 1 := by
                  simp
                rw [hlen]
                simp only [Nat.reduceBEq, Bool.false_eq_true, if_false, List.take_succ_cons,
                  List.take_zero, List.getLast?_singleton]
                refine congrArg (' ' :: ·) ?_
                refine ih (some ' ') n ?_ ?_ (noDoubleSpace_tail hnd)
                · have := hfuel
                  simp only [List.length_cons] at this ⊢
                  omega
                · intro c hc
                  exact hch c (List.mem_cons_of_mem _ hc)
          · have haws : isWs a = false :=
              las_isWs_false (hch a (List.mem_cons_self a as)) ha
            have hm : mAt false (Re.rep1 CharCls.space) prev (a :: as)
                (fun _ rest => some rest) = none := by
              simp only [mAt]
              rw [show clsMatch false CharCls.space a = isWs a from rfl, haws]
              simp
            simp only [subAux]
            rw [hm]
            refine congrArg (a :: ·) ?_
            refine ih (some a) n ?_ (fun c hc => hch c (List.mem_cons_of_mem _ hc))
              (noDoubleSpace_tail hnd)
            have := hfuel
            simp only [List.length_cons] at this
            omega

theorem wsCollapse_id {s : Str} (hch : ∀ c ∈ s, lowerAlphaSpace c = true)
    (hnd : noDoubleSpace s = true) :
    reSub false (Re.rep1 CharCls.space) (str " ") s = s :=
  wsCollapse_subAux none (s.length + 1) (by omega) hch hnd

/-- One copying step of the substitution scan when the pattern fails at the
current position. -/
theorem subAux_none_step (ic : Bool) (r : Re) (repl : Str) (prev : Option Char)
    (a : Char) (as : Str) (n : Nat)
    (h : mAt ic r prev (a :: as) (fun _ rest => some rest) = none) :
    subAux ic r repl prev (a :: as) (n + 1) =
      a :: subAux ic r repl (some a) as n := by
  simp only [subAux]
  rw [h]

/-- Behind position 0 a `^`-anchored pattern never matches: the
substitution copies the tail unchanged. -/
theorem subAux_bos_tail (ic : Bool) (r' : Re) (repl : Str) :
    ∀ (s : Str) (c : Char) (fuel : Nat),
      subAux ic (Re.seq Re.bos r') repl (some c) s fuel = s := by
  intro s
  induction s with
  | nil =>
      intro c fuel
      cases fuel with
      | zero => rfl
      | succ n => rfl
  | cons a as ih =>
      intro c fuel
      cases fuel with
      | zero => rfl
      | succ n =>
          rw [subAux_none_step ic (Re.seq Re.bos r') repl (some c) a as n rfl]
          exact congrArg (a :: ·) (ih a n)

/-- A `^`-anchored pattern that fails at position 0 leaves the string
unchanged under `re.sub`. -/
theorem reSub_bos_id (ic : Bool) (r' : Re) (repl : Str) (s : Str)
    (h : mAt ic (Re.seq Re.bos r') none s (fun _ rest => some rest) = none) :
    reSub ic (Re.seq Re.bos r') repl s = s := by
  unfold reSub
  cases s with
  | nil =>
      simp only [subAux]
      rw [h]
  | cons a as =>
      rw [subAux_none_step ic _ repl none a as _ h]
      exact congrArg (a :: ·) (subAux_bos_tail ic r' repl as a _)

/-- Plain clinical text opens with a clinical opener, so the
leading-punctuation strip of step 9 fails at position 0. -/
theorem leadPunct_none {d : Str}
    (hop : openers.any (fun o => startsWithL d o) = true) :
    mAt false (Re.seq Re.bos (Re.rep1 (CharCls.un (CharCls.chs [',', '.']) CharCls.space)))
      none d (fun _ rest => some rest) = none := by
  obtain ⟨o, ho, hso⟩ := List.any_eq_true.mp hop
  obtain ⟨rest, hrest⟩ := startsWithL_iff.mp hso
  subst hrest
  fin_cases ho <;> rfl

/-- Plain clinical text opens with a clinical opener, so every
redundant-start pattern fails at position 0. -/
theorem redundant_none {d : Str}
    (hop : openers.any (fun o => startsWithL d o) = true) :
    ∀ p ∈ redundantStarts,
      mAt true p none d (fun _ rest => some rest) = none := by
  obtain ⟨o, ho, hso⟩ := List.any_eq_true.mp hop
  obtain ⟨rest, hrest⟩ := startsWithL_iff.mp hso
  subst hrest
  intro p hp
  fin_cases ho <;> fin_cases hp <;> rfl

theorem cdStep9a_id {d : Str} (hch : ∀ c ∈ d, lowerAlphaSpace c = true)
    (hnd : noDoubleSpace d = true) (hstrip : pyStrip d = d)
    (hop : openers.any (fun o => startsWithL d o) = true) : cdStep9a d = d := by
  have hcomma := las_not_chs hch false [','] (by decide)
  have hdot := las_not_chs hch false ['.'] (by decide)
  unfold cdStep9a
  dsimp only
  rw [wsCollapse_id hch hnd]
  rw [reSub_id false _ _ d
    (mAt_all_none_of_mustCls (fun h => Bool.noConfusion h) (by decide) hcomma)]
  rw [reSub_id false _ _ d
    (mAt_all_none_of_mustCls (fun h => Bool.noConfusion h) (by decide) hdot)]
  rw [reSub_id false _ _ d
    (mAt_all_none_of_mustCls (fun h => Bool.noConfusion h) (by decide) hcomma)]
  rw [reSub_id false _ _ d
    (mAt_all_none_of_mustCls (fun h => Bool.noConfusion h) (by decide) hcomma)]
  rw [hstrip]
  rw [reSub_bos_id false _ _ d (leadPunct_none hop)]
  refine foldl_fixed _ _ _ ?_
  intro p hp
  fin_cases hp <;> exact reSub_bos_id true _ _ d (redundant_none hop _ (by decide))

theorem cdStep9b_opener {d : Str} (hne : d ≠ []) (hlow : pyLower d = d)
    (hop : openers.any (fun o => startsWithL d o) = true) :
    cdStep9b d = capFirst d := by
  obtain ⟨o, ho, hso⟩ := List.any_eq_true.mp hop
  have h1 : d.isEmpty = false := by
    cases d with
    | nil => exact absurd rfl hne
    | cons a as => rfl
  unfold cdStep9b
  rw [hlow]
  fin_cases ho <;>
    simp only [h1, Bool.false_eq_true, if_false, hso, Bool.or_true, Bool.true_or,
      Bool.or_false, Bool.false_or, if_true]

/-- Claim C2, counterexample: the description `dor abdominal` is free of
identifying patterns, yet `_clean_description` prepends the word
`Paciente`, so the output differs from the input even after whitespace and
capitalization canonicalization. -/
theorem C2_counterexample :
    identifierFree (str "dor abdominal") = true ∧
    clean_description (str "dor abdominal") 34 (str "feminino") =
      str "Paciente dor abdominal" ∧
    canonWsCase (clean_description (str "dor abdominal") 34 (str "feminino")) ≠
      canonWsCase (str "dor abdominal") := by
  refine ⟨by decide, by decide, by decide⟩

/-- Claim C2, amended: on plain clinical prose — non-empty lowercase
ASCII-letter-and-single-space text, stripped, opening with a recognized
clinical opener and containing no scrubber keyword — `_clean_description`
only capitalizes the first letter: `clean_description d age gender =
capFirst d`, for every age and gender. -/
theorem C2_amended_scrub_fixed (d : Str) (age : Nat) (gender : Str)
    (h : plainClinicalText d = true) :
    clean_description d age gender = capFirst d := by
  simp only [plainClinicalText, Bool.and_eq_true] at h
  obtain ⟨⟨⟨⟨⟨hne, hall⟩, hnd⟩, hstrip⟩, hop⟩, hbk⟩ := h
  have hne' : d ≠ [] := by
    intro heq
    subst heq
    exact Bool.noConfusion hne
  have hch : ∀ c ∈ d, lowerAlphaSpace c = true := by
    rw [List.all_eq_true] at hall
    exact fun c hc => hall c hc
  have hstrip' : pyStrip d = d := by rwa [beq_iff_eq] at hstrip
  have hbk' : ∀ kw ∈ bannedKeywords, pyIn kw d = false := by
    rw [List.all_eq_true] at hbk
    intro kw hkw
    have := hbk kw hkw
    rwa [Bool.not_eq_true'] at this
  have hlow : pyLower d = d := pyLower_id (fun c hc => lowerAlphaSpace_fixed (hch c hc))
  have hpac : pyIn (str "paciente") d = false := hbk' _ (by decide)
  unfold clean_description
  rw [cdStep2_id hch, cdStep3a_id hpac hlow, cdStep3b_id hch, cdStep3c_id hch,
    cdStep3d_id hch, cdStep4_id hch, cdStep5_id hch hlow hbk', cdStep6_id hch hlow hbk',
    cdStep7_id hch hlow hbk', cdStep8_id hlow hbk', cdStep9a_id hch hnd hstrip' hop]
  exact cdStep9b_opener hne' hlow hop

/-- Witness for the amended C2 theorem at a concrete plain clinical
description. -/
theorem C2_amended_scrub_fixed_witness :
    plainClinicalText (str "com dor intensa") = true ∧
    clean_description (str "com dor intensa") 30 (str "feminino") =
      capFirst (str "com dor intensa") :=
  ⟨by decide, C2_amended_scrub_fixed _ 30 _ (by decide)⟩

/-!
## Uppercasing lemmas and the canonical-output shape of `_clean_description`
(claim C8)
-/

theorem char_eq_of_toNat {a b : Char} (h : a.toNat = b.toNat) : a = b :=
  Char.eq_of_val_eq (UInt32.eq_of_toBitVec_eq (BitVec.eq_of_toNat_eq h))

theorem accent_find_snd_none {c : Char} (h : c.toNat < 224) :
    accentPairs.find? (fun p => p.snd == c) = none := by
  rw [List.find?_eq_none]
  intro p hp
  fin_cases hp <;>
    (simp only [beq_iff_eq]; rintro rfl; exact absurd h (by decide))

/-- Uppercasing then lowercasing agrees with plain lowercasing. -/
theorem lowerCh_upperCh (c : Char) : lowerCh (upperCh c) = lowerCh c := by
  by_cases h : 'a' ≤ c ∧ c ≤ 'z'
  · have h1 : 97 ≤ c.toNat := h.1
    have h2 : c.toNat ≤ 122 := h.2
    have hval : (c.toNat - 32).isValidChar := Or.inl (by omega)
    have hu : upperCh c = Char.ofNat (c.toNat - 32) := by
      unfold upperCh
      rw [if_pos h]
    have htn : (Char.ofNat (c.toNat - 32)).toNat = c.toNat - 32 := toNat_ofNat_valid _ hval
    rw [hu]
    have hlu : lowerCh (Char.ofNat (c.toNat - 32)) =
        Char.ofNat ((Char.ofNat (c.toNat - 32)).toNat + 32) := by
      unfold lowerCh
      rw [if_pos]
      exact ⟨by rw [char_le_iff, htn, show ('A' : Char).toNat = 65 from rfl]; omega,
             by rw [char_le_iff, htn, show ('Z' : Char).toNat = 90 from rfl]; omega⟩
    rw [hlu, htn, show c.toNat - 32 + 32 = c.toNat from by omega]
    rw [lowerCh_fixed_az (by omega) (by omega)]
    exact char_eq_of_toNat (toNat_ofNat_valid _ (Or.inl (by omega)))
  · have hu : upperCh c = (match accentPairs.find? (fun p => p.snd == c) with
        | some p => p.fst
        | none => c) := by
      unfold upperCh
      rw [if_neg h]
    cases hfind : accentPairs.find? (fun p => p.snd == c) with
    | none =>
        have hc : upperCh c = c := by rw [hu, hfind]
        rw [hc]
    | some p =>
        have hpc : p.snd = c := by
          have := List.find?_some hfind
          rwa [beq_iff_eq] at this
        have hm := List.mem_of_find?_eq_some hfind
        have hc : upperCh c = p.fst := by rw [hu, hfind]
        rw [hc, ← hpc]
        fin_cases hm <;> decide

/-- Uppercasing one character is idempotent. -/
theorem upperCh_idem (c : Char) : upperCh (upperCh c) = upperCh c := by
  by_cases h : 'a' ≤ c ∧ c ≤ 'z'
  · have h1 : 97 ≤ c.toNat := h.1
    have h2 : c.toNat ≤ 122 := h.2
    have hu : upperCh c = Char.ofNat (c.toNat - 32) := by
      unfold upperCh
      rw [if_pos h]
    have htn : (Char.ofNat (c.toNat - 32)).toNat = c.toNat - 32 :=
      toNat_ofNat_valid _ (Or.inl (by omega))
    rw [hu]
    unfold upperCh
    rw [if_neg, accent_find_snd_none (by rw [htn]; omega)]
    intro hcontra
    have := hcontra.1
    rw [char_le_iff, htn] at this
    have : (97 : Nat) ≤ c.toNat - 32 := this
    omega
  · have hu : upperCh c = (match accentPairs.find? (fun p => p.snd == c) with
        | some p => p.fst
        | none => c) := by
      unfold upperCh
      rw [if_neg h]
    cases hfind : accentPairs.find? (fun p => p.snd == c) with
    | none =>
        have hc : upperCh c = c := by rw [hu, hfind]
        rw [hc, hc]
    | some p =>
        have hm := List.mem_of_find?_eq_some hfind
        have hc : upperCh c = p.fst := by rw [hu, hfind]
        rw [hc]
        fin_cases hm <;> decide

/-- The final step of `_clean_description` always emits a non-empty,
first-letter-capitalized text opening with `Paciente` or a clinical opener;
an empty input becomes `Paciente`. -/
theorem cdStep9b_shape (x : Str) :
    cdStep9b x ≠ [] ∧ capFirst (cdStep9b x) = cdStep9b x ∧
    (startsWithL (pyLower (cdStep9b x)) (str "paciente") = true ∨
      openers.any (fun o => startsWithL (pyLower (cdStep9b x)) o) = true) ∧
    (x = [] → cdStep9b x = str "Paciente") := by
  unfold cdStep9b
  by_cases hx : x.isEmpty = true
  · simp only [hx, if_true]
    exact ⟨by decide, by decide, Or.inl (by decide), fun _ => by decide⟩
  · rw [Bool.not_eq_true] at hx
    simp only [hx, Bool.false_eq_true, if_false]
    obtain ⟨a, as, rfl⟩ : ∃ a as, x = a :: as := by
      cases x with
      | nil => exact Bool.noConfusion hx
      | cons a as => exact ⟨a, as, rfl⟩
    by_cases hc : (startsWithL (pyLower (a :: as)) (str "paciente") ||
        startsWithL (pyLower (a :: as)) (str "com dor") ||
        startsWithL (pyLower (a :: as)) (str "referindo") ||
        startsWithL (pyLower (a :: as)) (str "apresenta") ||
        startsWithL (pyLower (a :: as)) (str "queixa")) = true
    · simp only [hc, if_true]
      have hpl : pyLower (capFirst (a :: as)) = pyLower (a :: as) := by
        show lowerCh (upperCh a) :: pyLower as = lowerCh a :: pyLower as
        rw [lowerCh_upperCh]
      refine ⟨fun h => List.noConfusion h, ?_, ?_, fun h => absurd h (List.cons_ne_nil a as)⟩
      · show upperCh (upperCh a) :: as = upperCh a :: as
        rw [upperCh_idem]
      · rw [hpl]
        simp only [Bool.or_eq_true] at hc
        rcases hc with ((((h | h) | h) | h) | h)
        · exact Or.inl h
        · exact Or.inr (List.any_eq_true.mpr ⟨str "com dor", by decide, h⟩)
        · exact Or.inr (List.any_eq_true.mpr ⟨str "referindo", by decide, h⟩)
        · exact Or.inr (List.any_eq_true.mpr ⟨str "apresenta", by decide, h⟩)
        · exact Or.inr (List.any_eq_true.mpr ⟨str "queixa", by decide, h⟩)
    · rw [Bool.not_eq_true] at hc
      simp only [hc, Bool.false_eq_true, if_false]
      have hform : capFirst (str "Paciente " ++ (a :: as)) = str "Paciente " ++ (a :: as) := by
        show upperCh 'P' :: (str "aciente " ++ (a :: as)) = 'P' :: (str "aciente " ++ (a :: as))
        rw [show upperCh 'P' = 'P' from by decide]
      have hpl : pyLower (str "Paciente " ++ (a :: as)) =
          str "paciente " ++ pyLower (a :: as) := by
        show List.map lowerCh (str "Paciente " ++ (a :: as)) = _
        rw [List.map_append]
        rw [show List.map lowerCh (str "Paciente ") = str "paciente " from by decide]
        rfl
      refine ⟨?_, ?_, ?_, fun h => absurd h (List.cons_ne_nil a as)⟩
      · rw [hform]
        exact fun h => List.noConfusion h
      · rw [hform]
        exact hform
      · rw [hform, hpl]
        exact Or.inl (startsWithL_append_left (p := str "paciente") (by decide) _)

/-- Claim C8: for every description, age and gender, `_clean_description`
returns a non-empty string whose first letter is capitalized (uppercasing
it again changes nothing) and whose text opens with `Paciente` or with a
recognized clinical opener; when the preceding cleaning stages produce the
empty string the result is literally `Paciente`. -/
theorem C8_canonical_output (d : Str) (age : Nat) (gender : Str) :
    clean_description d age gender ≠ [] ∧
    capFirst (clean_description d age gender) = clean_description d age gender ∧
    (startsWithL (pyLower (clean_description d age gender)) (str "paciente") = true ∨
      openers.any (fun o => startsWithL (pyLower (clean_description d age gender)) o) = true) ∧
    (cdStep9a (cdStep8 (cdStep7 (cdStep6 (cdStep5 (cdStep4 (cdStep3d (cdStep3c
        (cdStep3b (cdStep3a (cdStep2 d)))))))))) = [] →
      clean_description d age gender = str "Paciente") := by
  unfold clean_description
  exact cdStep9b_shape _

/-!
## `process_file`: duplicate-skip atomicity (claim C7) and unreachability
of the extraction-failure branch (claim C9)
-/

theorem pyChoiceNat_mem (k : Nat) (l : List Nat) (h : l ≠ []) : pyChoiceNat k l ∈ l := by
  unfold pyChoiceNat
  have hl : 0 < l.length := List.length_pos.mpr h
  have hlt : k % l.length < l.length := Nat.mod_lt _ hl
  rw [List.getD_eq_getElem?_getD, List.getElem?_eq_getElem hlt]
  exact List.getElem_mem _

theorem pyChoiceNat_pos {l : List Nat} (h : l ≠ [])
    (hall : l.all (fun x => decide (0 < x)) = true) (k : Nat) : 0 < pyChoiceNat k l := by
  have hmem := pyChoiceNat_mem k l h
  rw [List.all_eq_true] at hall
  exact of_decide_eq_true (hall _ hmem)

/-- Every branch of `_infer_age_from_context` draws from a list of positive
ages. -/
theorem infer_age_pos (t g : Str) (k : Nat) : 0 < infer_age_from_context t g k := by
  unfold infer_age_from_context
  dsimp only
  split_ifs <;> exact pyChoiceNat_pos (by decide) (by decide) k

/-- The epidemiological gender inference always returns a non-empty
gender word. -/
theorem isEmpty_ite_false {c : Prop} [Decidable c] {a b : Str}
    (ha : a.isEmpty = false) (hb : b.isEmpty = false) :
    (if c then a else b).isEmpty = false := by
  by_cases h : c
  · rwa [if_pos h]
  · rwa [if_neg h]

theorem genderFromDisease_nonempty (dis : Str) (coin : Bool) :
    (genderFromDisease dis coin).isEmpty = false := by
  unfold genderFromDisease
  cases coin <;> repeat' (first | rfl | apply isEmpty_ite_false)

/-- The age value after the synthesis fallback of `process_file` is always
truthy. -/
theorem fallback_age_truthy (eg : Option Nat × Option Str) (t : Str) (kAge : Nat)
    (g2 : Option Str) :
    truthyNat (if !truthyNat eg.fst then
        some (infer_age_from_context t (g2.getD []) kAge)
      else eg.fst) = true := by
  by_cases h : truthyNat eg.fst = true
  · simp only [h, Bool.not_true, Bool.false_eq_true, if_false]
  · rw [Bool.not_eq_true] at h
    simp only [h, Bool.not_false, if_true]
    show truthyNat (some (infer_age_from_context t (g2.getD []) kAge)) = true
    simp only [truthyNat, decide_eq_true_eq]
    have := infer_age_pos t (g2.getD []) kAge
    omega

/-- The gender value after the synthesis fallback of `process_file` is
always truthy once the age is. -/
theorem fallback_gender_truthy (g2 : Option Str) (a2 : Option Nat) (dis : Str)
    (coin : Bool) (h : truthyNat a2 = true) :
    truthyStr (if truthyNat a2 && !truthyStr g2 then
        some (genderFromDisease dis coin)
      else g2) = true := by
  by_cases hg : truthyStr g2 = true
  · simp only [h, hg, Bool.not_true, Bool.and_false, Bool.false_eq_true, if_false]
  · rw [Bool.not_eq_true] at hg
    simp only [h, hg, Bool.not_false, Bool.and_true, if_true]
    show truthyStr (some (genderFromDisease dis coin)) = true
    simp only [truthyStr, genderFromDisease_nonempty dis coin, Bool.not_false]

theorem startsWithL_append_false {a b : Char} {u x bs : Str} (h : a ≠ b) :
    startsWithL ((a :: u) ++ x) (b :: bs) = false :=
  startsWithL_false_head h

/-- Claim C7: a record with duplicate `IDENTIFICAÇÃO DO PACIENTE` entries
makes `process_file` return failure before any mutation or write: the
record is unchanged, no write happens, the message is the duplicate-skip
text, and the report classifier files it in the duplicate bucket, not the
generic-error bucket. -/
theorem C7_duplicate_atomic (rec : Record) (db : List NameCategory) (tr : Tracker)
    (extract : Str → Option Nat × Option Str) (kAge kOcc kMar kName : Nat) (coin : Bool)
    (hdup : (check_duplicate_identification rec.infos).fst = true) :
    (process_file rec db tr extract kAge kOcc kMar kName coin).success = false ∧
    (process_file rec db tr extract kAge kOcc kMar kName coin).record = rec ∧
    (process_file rec db tr extract kAge kOcc kMar kName coin).wrote = false ∧
    (process_file rec db tr extract kAge kOcc kMar kName coin).message =
      str "Arquivo contém " ++ natToStr (check_duplicate_identification rec.infos).snd ++
      str " campos 'IDENTIFICAÇÃO DO PACIENTE' (duplicatas detectadas)" ∧
    msgIsDuplicateFlag
      (process_file rec db tr extract kAge kOcc kMar kName coin).message = true ∧
    msgIsError (process_file rec db tr extract kAge kOcc kMar kName coin).message = false := by
  have hpf : process_file rec db tr extract kAge kOcc kMar kName coin =
      { success := false
        message := str "Arquivo contém " ++
          natToStr (check_duplicate_identification rec.infos).snd ++
          str " campos 'IDENTIFICAÇÃO DO PACIENTE' (duplicatas detectadas)"
        record := rec
        wrote := false } := by
    unfold process_file
    dsimp only
    simp only [hdup, if_true]
  rw [hpf]
  have hflag : pyIn (str "duplicatas detectadas")
      (pyLower (str "Arquivo contém " ++
        natToStr (check_duplicate_identification rec.infos).snd ++
        str " campos 'IDENTIFICAÇÃO DO PACIENTE' (duplicatas detectadas)")) = true := by
    show pyIn (str "duplicatas detectadas")
      (List.map lowerCh ((str "Arquivo contém " ++
        natToStr (check_duplicate_identification rec.infos).snd) ++
        str " campos 'IDENTIFICAÇÃO DO PACIENTE' (duplicatas detectadas)")) = true
    rw [List.map_append]
    exact pyIn_append_right (by decide)
  refine ⟨rfl, rfl, rfl, rfl, hflag, ?_⟩
  show msgIsError _ = false
  unfold msgIsError
  rw [show pyLower = List.map lowerCh from rfl] at hflag
  simp only [msgIsDuplicateFlag, pyLower, hflag, Bool.or_true, Bool.not_true]

/-- Witness for the C7 theorem on a concrete two-duplicate record. -/
theorem C7_duplicate_atomic_witness :
    (check_duplicate_identification
      [Info.mk (str "IDENTIFICAÇÃO DO PACIENTE") (str "a"),
       Info.mk (str "IDENTIFICAÇÃO DO PACIENTE") (str "b")]).fst = true ∧
    (process_file
      (Record.mk [Info.mk (str "IDENTIFICAÇÃO DO PACIENTE") (str "a"),
        Info.mk (str "IDENTIFICAÇÃO DO PACIENTE") (str "b")] (some (str "dor")) (str "t"))
      [] [] (fun _ => (none, none)) 0 0 0 0 false).record =
    Record.mk [Info.mk (str "IDENTIFICAÇÃO DO PACIENTE") (str "a"),
      Info.mk (str "IDENTIFICAÇÃO DO PACIENTE") (str "b")] (some (str "dor")) (str "t") :=
  ⟨by decide, (C7_duplicate_atomic _ [] [] (fun _ => (none, none)) 0 0 0 0 false
    (by decide)).2.1⟩

/-- Claim C9: for every record carrying the narrative field, the
extraction-failure message (`Não foi possível extrair ...`) is unreachable:
the synthesis fallback always leaves a truthy age and gender, so the
returned message never opens with that text, for every extractor outcome,
oracle and database. -/
theorem C9_extraction_failure_unreachable (rec : Record) (db : List NameCategory)
    (tr : Tracker) (extract : Str → Option Nat × Option Str)
    (kAge kOcc kMar kName : Nat) (coin : Bool) (desc : Str)
    (hdesc : rec.descricao = some desc) :
    startsWithL (process_file rec db tr extract kAge kOcc kMar kName coin).message
      (str "Não foi possível extrair") = false := by
  unfold process_file
  dsimp only
  by_cases hdup : (check_duplicate_identification rec.infos).fst = true
  · simp only [hdup, if_true]
    exact startsWithL_append_false (by decide)
  · rw [Bool.not_eq_true] at hdup
    simp only [hdup, Bool.false_eq_true, if_false]
    by_cases hcor : (!decide (0 < (check_duplicate_identification rec.infos).snd) &&
        (is_file_already_correct rec).fst) = true
    · simp only [hcor, if_true]
      exact startsWithL_append_false (by decide)
    · rw [Bool.not_eq_true] at hcor
      simp only [hcor, Bool.false_eq_true, if_false]
      rw [hdesc]
      dsimp only
      generalize hg2e : (if !truthyNat (extract desc).fst then
          (if truthyStr (extract desc).snd then (extract desc).snd
           else some (genderFromDisease (pyLower rec.titulo) coin))
         else (extract desc).snd) = g2v
      generalize ha2e : (if !truthyNat (extract desc).fst then
          some (infer_age_from_context rec.titulo (g2v.getD []) kAge)
         else (extract desc).fst) = a2v
      generalize hg3e : (if truthyNat a2v && !truthyStr g2v then
          some (genderFromDisease (pyLower rec.titulo) coin)
         else g2v) = g3v
      have ha2 : truthyNat a2v = true :=
        ha2e ▸ fallback_age_truthy (extract desc) rec.titulo kAge g2v
      have hg3 : truthyStr g3v = true :=
        hg3e ▸ fallback_gender_truthy g2v a2v (pyLower rec.titulo) coin ha2
      simp only [ha2, hg3, Bool.not_true, Bool.or_self, Bool.false_eq_true, if_false]
      cases hdraw : get_random_name db tr
          (get_name_category (a2v.getD 0) (g3v.getD [])) kName with
      | error e =>
          show startsWithL (str "Erro ao processar arquivo: ")
            (str "Não foi possível extrair") = false
          decide
      | ok pair =>
          obtain ⟨name, tr2⟩ := pair
          by_cases hhi : decide (0 < (check_duplicate_identification rec.infos).snd) = true
          · simp only [hhi, if_true]
            exact startsWithL_append_false (by decide)
          · rw [Bool.not_eq_true] at hhi
            simp only [hhi, Bool.false_eq_true, if_false]
            exact startsWithL_append_false (by decide)

/-- Witness for the C9 theorem on a concrete record with a narrative. -/
theorem C9_extraction_failure_unreachable_witness :
    (Record.mk [] (some (str "dor")) (str "t")).descricao = some (str "dor") ∧
    startsWithL (process_file (Record.mk [] (some (str "dor")) (str "t"))
      [] [] (fun _ => (none, none)) 0 0 0 0 false).message
      (str "Não foi possível extrair") = false :=
  ⟨rfl, C9_extraction_failure_unreachable _ [] [] (fun _ => (none, none)) 0 0 0 0 false
    (str "dor") rfl⟩

end Anonymizer
